import Mathlib

/-!
Camunda process instances migrator.

A shallow embedding of `src/services/processInstancesMigrator.js` and of the
gateway `src/clients/camundaApiHttpClient.js`.

* The remote engine is an arbitrary deterministic environment: every HTTP
  endpoint answers as a function of the whole history of the run so far.
* A computation threads the history (the trace of gateway calls, HTTP requests
  and delays) and ends with a value, a thrown JavaScript error, or, for the
  unbounded polling loop, with the marker that its fuel ran out.
-/

namespace Camunda

/-! ## Data model -/

/-- JavaScript values a request field can hold, as far as `typeof` tells them apart. -/
inductive JsValue where
  | undefined
  | null
  | boolean (b : Bool)
  | number (n : Int)
  | string (s : String)
  deriving DecidableEq, Repr

/-- The `typeof` operator. -/
def JsValue.typeof : JsValue → String
  | .undefined => "undefined"
  | .null => "object"
  | .boolean _ => "boolean"
  | .number _ => "number"
  | .string _ => "string"

/-- An element of the request list: `name`, `sourceProcessDefinitionId`, `targetProcessDefinitionId`. -/
structure MigrationRequest where
  name : Option String
  sourceProcessDefinitionId : JsValue
  targetProcessDefinitionId : JsValue
  deriving DecidableEq, Repr

/-- A process definition record of the engine. -/
structure ProcessDefinition where
  id : String
  key : String
  version : Int
  deploymentId : String
  deriving DecidableEq, Repr

/-- A running process instance. -/
structure ProcessInstance where
  id : String
  deriving DecidableEq, Repr

/-- The migration plan generated by the engine. -/
structure MigrationPlan where
  sourceProcessDefinitionId : String
  targetProcessDefinitionId : String
  updateEventTriggers : Bool
  deriving DecidableEq, Repr

/-- The batch handle returned by the asynchronous migration. -/
structure Batch where
  id : String
  deriving DecidableEq, Repr

/-- One record of `/batch/statistics`. -/
structure BatchStatistics where
  id : String
  totalJobs : Int
  completedJobs : Int
  remainingJobs : Int
  failedJobs : Int
  deriving DecidableEq, Repr

/-- Query parameters of `GET /process-definition`; an absent field is not sent. -/
structure ProcessDefinitionFilters where
  key : Option String := none
  version : Option Int := none
  latestVersion : Option Bool := none
  deriving DecidableEq, Repr

/-- The two timing constants of `../constants`, kept symbolic. -/
inductive Timeout where
  | DELETE_CAMUNDA_ENTITY_TIMEOUT
  | CHECK_BATCH_COMPLETION_TIMEOUT
  deriving DecidableEq, Repr

/-- An invocation of a method of `CamundaApiHttpClient`, with its arguments. -/
inductive GatewayCall where
  | getProcessInstancesByProcessDefinitionId (processDefinitionId : Option String)
  | getProcessDefinitionLastVersionIdByDefinitionKey (definitionKey : Option String)
  | getProcessDefinitionById (definitionId : Option String)
  | listProcessDefinitions (filters : ProcessDefinitionFilters)
  | generateMigrationPlan (sourceProcessDefinitionId targetProcessDefinitionId : Option String)
  | migrateProcessInstancesForMigrationPlan (migrationPlan : Option MigrationPlan)
  | migrateProcessInstances (sourceProcessDefinitionId targetProcessDefinitionId : Option String)
  | getBatchesStatistics (batchId : String)
  | deleteDeployment (deploymentId : Option String)
  | suspendBatch (batchId : Option String)
  | deleteBatch (batchId : Option String)
  deriving DecidableEq, Repr

/-- An HTTP request sent through the axios instance. -/
inductive HttpRequest where
  /-- GET /process-instance?processDefinitionId=... -/
  | getProcessInstances (processDefinitionId : String)
  /-- GET /process-definition/key/... -/
  | getProcessDefinitionByKey (definitionKey : String)
  /-- GET /process-definition/... -/
  | getProcessDefinition (definitionId : String)
  /-- GET /process-definition with query parameters -/
  | getProcessDefinitions (filters : ProcessDefinitionFilters)
  /-- POST /migration/generate -/
  | postMigrationGenerate (sourceProcessDefinitionId targetProcessDefinitionId : String)
      (updateEventTriggers : Bool)
  /-- POST /migration/executeAsync -/
  | postMigrationExecuteAsync (processDefinitionId : String) (migrationPlan : MigrationPlan)
      (skipCustomListeners : Bool)
  /-- GET /batch/statistics?batchId=... -/
  | getBatchStatistics (batchId : String)
  /-- DELETE /deployment/... -/
  | deleteDeployment (deploymentId : String)
  /-- PUT /batch/.../suspended -/
  | putBatchSuspended (batchId : String) (suspended : Bool)
  /-- DELETE /batch/... -/
  | deleteBatch (batchId : String)
  deriving DecidableEq, Repr

/-- What a run leaves behind, in order. -/
inductive Event where
  | call (c : GatewayCall)
  | http (r : HttpRequest)
  | delay (duration : Timeout)
  deriving DecidableEq, Repr

/-- The history of a run. -/
abbrev Trace := List Event

/-- The settlement of an axios promise. -/
inductive HttpResult (α : Type) where
  | resolved (status : Nat) (data : α)
  | rejected
  deriving DecidableEq, Repr

/-- The remote engine behind the axios instance: each endpoint answers from the
history of the run before the request and from the request itself. -/
structure Engine where
  processInstances : Trace → String → HttpResult (Option (List ProcessInstance))
  processDefinitionByKey : Trace → String → HttpResult ProcessDefinition
  processDefinitionById : Trace → String → HttpResult ProcessDefinition
  processDefinitions : Trace → ProcessDefinitionFilters → HttpResult (List ProcessDefinition)
  migrationGenerate : Trace → String → String → HttpResult MigrationPlan
  migrationExecuteAsync : Trace → MigrationPlan → HttpResult Batch
  batchStatistics : Trace → String → HttpResult (List BatchStatistics)
  deploymentDelete : Trace → String → HttpResult Unit
  batchSuspend : Trace → String → HttpResult Unit
  batchDelete : Trace → String → HttpResult Unit

/-- Errors a step can throw. -/
inductive JsError where
  /-- A property of `undefined` was read. -/
  | typeError
  /-- Manipula `singleOrDefault` met more than one element. -/
  | moreThanOneElement
  deriving DecidableEq, Repr

/-- How a computation ends. -/
inductive Completion (α : Type) where
  | value (a : α)
  | thrown (err : JsError)
  | outOfFuel
  deriving DecidableEq, Repr

/-- An asynchronous computation against the engine. -/
def Js (α : Type) : Type := Engine → Trace → Completion α × Trace

/-- Sequencing: an error or exhausted fuel ends the computation. -/
def Js.bind {α β : Type} (m : Js α) (f : α → Js β) : Js β := fun e t =>
  match m e t with
  | (.value a, t1) => f a e t1
  | (.thrown err, t1) => (.thrown err, t1)
  | (.outOfFuel, t1) => (.outOfFuel, t1)

instance : Monad Js where
  pure a := fun _ t => (.value a, t)
  bind := Js.bind

/-- Append an event to the history. -/
def emit (ev : Event) : Js Unit := fun _ t => (.value (), t ++ [ev])

/-- Throw a JavaScript error. -/
def throwJs {α : Type} (err : JsError) : Js α := fun _ t => (.thrown err, t)

/-- The marker of a loop that did not finish within its fuel. -/
def exhausted {α : Type} : Js α := fun _ t => (.outOfFuel, t)

/-- Send a request: the engine answers from the history before it. -/
def send {α : Type} (r : HttpRequest) (respond : Engine → Trace → HttpResult α) :
    Js (HttpResult α) := fun e t => (.value (respond e t), t ++ [.http r])

/-- `delay(duration)`: a wait, recorded in the history. -/
def delay (duration : Timeout) : Js Unit := emit (.delay duration)

/-- JavaScript falsiness of a string that may be undefined. -/
def isFalsy : Option String → Bool
  | none => true
  | some s => s == ""

/-- Manipula `singleOrDefault()`: the only element, nothing for an empty
sequence, and an error when the sequence has more than one element. -/
def singleOrDefault {α : Type} : List α → Js (Option α)
  | [] => pure none
  | [x] => pure (some x)
  | _ :: _ :: _ => throwJs .moreThanOneElement

/-! ## The gateway: `CamundaApiHttpClient` -/

namespace CamundaApiHttpClient

/-- Gets process instances by process definition id: the data of a 200 answer,
an empty list for a missing id, another status or a transport error. -/
def getProcessInstancesByProcessDefinitionId (processDefinitionId : Option String) :
    Js (Option (List ProcessInstance)) := do
  emit (.call (.getProcessInstancesByProcessDefinitionId processDefinitionId))
  match processDefinitionId with
  | none => return some []
  | some id =>
    if id = "" then return some []
    else
      let r ← send (.getProcessInstances id) (fun e t => e.processInstances t id)
      return (match r with
        | .resolved status data => if status = 200 then data else some []
        | .rejected => some [])

/-- Gets the id of the last version of a process definition by its key. -/
def getProcessDefinitionLastVersionIdByDefinitionKey (definitionKey : Option String) :
    Js (Option String) := do
  emit (.call (.getProcessDefinitionLastVersionIdByDefinitionKey definitionKey))
  match definitionKey with
  | none => return none
  | some key =>
    if key = "" then return none
    else
      let r ← send (.getProcessDefinitionByKey key) (fun e t => e.processDefinitionByKey t key)
      return (match r with
        | .resolved status data => if status = 200 then some data.id else none
        | .rejected => none)

/-- Gets a process definition by its id. -/
def getProcessDefinitionById (definitionId : Option String) : Js (Option ProcessDefinition) := do
  emit (.call (.getProcessDefinitionById definitionId))
  match definitionId with
  | none => return none
  | some id =>
    if id = "" then return none
    else
      let r ← send (.getProcessDefinition id) (fun e t => e.processDefinitionById t id)
      return (match r with
        | .resolved status data => if status = 200 then some data else none
        | .rejected => none)

/-- Lists process definitions by filters. -/
def listProcessDefinitions (filters : ProcessDefinitionFilters) : Js (List ProcessDefinition) := do
  emit (.call (.listProcessDefinitions filters))
  let r ← send (.getProcessDefinitions filters) (fun e t => e.processDefinitions t filters)
  return (match r with
    | .resolved status data => if status = 200 then data else []
    | .rejected => [])

/-- Generates the migration plan for a source and a target version. -/
def generateMigrationPlan (sourceProcessDefinitionId targetProcessDefinitionId : Option String) :
    Js (Option MigrationPlan) := do
  emit (.call (.generateMigrationPlan sourceProcessDefinitionId targetProcessDefinitionId))
  match sourceProcessDefinitionId, targetProcessDefinitionId with
  | some source, some target =>
    if source = "" ∨ target = "" then return none
    else
      let r ← send (.postMigrationGenerate source target true)
        (fun e t => e.migrationGenerate t source target)
      return (match r with
        | .resolved status data => if status = 200 then some data else none
        | .rejected => none)
  | _, _ => return none

/-- Migrates process instances for a migration plan: submits the batch. -/
def migrateProcessInstancesForMigrationPlan (migrationPlan : Option MigrationPlan) :
    Js (Option Batch) := do
  emit (.call (.migrateProcessInstancesForMigrationPlan migrationPlan))
  match migrationPlan with
  | none => return none
  | some plan =>
    let r ← send (.postMigrationExecuteAsync plan.sourceProcessDefinitionId plan true)
      (fun e t => e.migrationExecuteAsync t plan)
    return (match r with
      | .resolved status data => if status = 200 then some data else none
      | .rejected => none)

/-- Migrates process instances from the source version to the target version. -/
def migrateProcessInstances (sourceProcessDefinitionId targetProcessDefinitionId : Option String) :
    Js (Option Batch) := do
  emit (.call (.migrateProcessInstances sourceProcessDefinitionId targetProcessDefinitionId))
  if isFalsy sourceProcessDefinitionId || isFalsy targetProcessDefinitionId then return none
  else
    let migrationPlan ← generateMigrationPlan sourceProcessDefinitionId targetProcessDefinitionId
    migrateProcessInstancesForMigrationPlan migrationPlan

/-- Gets the statistics of the batch with the given id. -/
def getBatchesStatistics (batchId : String) : Js (List BatchStatistics) := do
  emit (.call (.getBatchesStatistics batchId))
  let r ← send (.getBatchStatistics batchId) (fun e t => e.batchStatistics t batchId)
  return (match r with
    | .resolved status data => if status = 200 then data else []
    | .rejected => [])

/-- Deletes a deployment by its id. -/
def deleteDeployment (deploymentId : Option String) : Js (Option Unit) := do
  emit (.call (.deleteDeployment deploymentId))
  match deploymentId with
  | none => return none
  | some id =>
    if id = "" then return none
    else
      let r ← send (.deleteDeployment id) (fun e t => e.deploymentDelete t id)
      return (match r with
        | .resolved status data => if status = 204 then some data else none
        | .rejected => none)

/-- Suspends a batch by its id. -/
def suspendBatch (batchId : Option String) : Js (Option Unit) := do
  emit (.call (.suspendBatch batchId))
  match batchId with
  | none => return none
  | some id =>
    if id = "" then return none
    else
      let r ← send (.putBatchSuspended id true) (fun e t => e.batchSuspend t id)
      return (match r with
        | .resolved status data => if status = 204 then some data else none
        | .rejected => none)

/-- Deletes a batch by its id. -/
def deleteBatch (batchId : Option String) : Js (Option Unit) := do
  emit (.call (.deleteBatch batchId))
  match batchId with
  | none => return none
  | some id =>
    if id = "" then return none
    else
      let r ← send (.deleteBatch id) (fun e t => e.batchDelete t id)
      return (match r with
        | .resolved status data => if status = 204 then some data else none
        | .rejected => none)

end CamundaApiHttpClient

/-! ## The orchestrator: `processInstancesMigrator.js` -/

/-- The result of the version resolution. -/
structure ProcessDefinitionIds where
  sourceProcessDefinitionIds : Option (List (Option String))
  targetProcessDefinitionId : Option String
  deriving DecidableEq, Repr

/-- The result of one migration. -/
structure MigrationResult where
  migrationBatch : Batch
  isSuccessedMigrationBatch : Bool
  deriving DecidableEq, Repr

/-- Gets source version ids and target version id for migration. -/
def getProcessDefinitionIdsForMigration (processDefinition : Option MigrationRequest) :
    Js (Option ProcessDefinitionIds) := do
  match processDefinition with
  | none => return none
  | some processDefinition =>
    let mut sourceProcessDefinitionIds : Option (List (Option String)) := none
    let mut targetProcessDefinitionId : Option String := none
    if processDefinition.sourceProcessDefinitionId.typeof ≠ "number" then
      let listProcessDefinitionsResponse ←
        CamundaApiHttpClient.listProcessDefinitions { key := processDefinition.name }
      sourceProcessDefinitionIds :=
        some (listProcessDefinitionsResponse.map (fun x => some x.id))
      targetProcessDefinitionId ←
        CamundaApiHttpClient.getProcessDefinitionLastVersionIdByDefinitionKey
          processDefinition.name
    match processDefinition.sourceProcessDefinitionId with
    | .number sourceVersion =>
      let sourceProcessDefinition ← singleOrDefault
        (← CamundaApiHttpClient.listProcessDefinitions
          { key := processDefinition.name, version := some sourceVersion })
      sourceProcessDefinitionIds := some [sourceProcessDefinition.map (fun x => x.id)]
      match processDefinition.targetProcessDefinitionId with
      | .number targetVersion =>
        let targetProcessDefinition ← singleOrDefault
          (← CamundaApiHttpClient.listProcessDefinitions
            { key := processDefinition.name, version := some targetVersion })
        targetProcessDefinitionId := targetProcessDefinition.map (fun x => x.id)
      | _ =>
        targetProcessDefinitionId ←
          CamundaApiHttpClient.getProcessDefinitionLastVersionIdByDefinitionKey
            processDefinition.name
    | _ => pure ()
    return some { sourceProcessDefinitionIds, targetProcessDefinitionId }

/-- Checks that the batch has completed. -/
def checkBatchCompletion (batchId : Option String) : Js Bool := do
  match batchId with
  | none => return false
  | some id =>
    if id = "" then return false
    else
      let getBatchesStatisticsResponse ← CamundaApiHttpClient.getBatchesStatistics id
      let batch ← singleOrDefault getBatchesStatisticsResponse
      match batch with
      | none => return true
      | some batch =>
        return (batch.totalJobs == batch.completedJobs ||
          batch.remainingJobs == batch.failedJobs)

/-- The `while (!isCompleted)` loop of `waitBatchExecutionCompletion`, bounded by fuel. -/
def waitLoop (batchId : Option String) : Nat → Bool → Js Unit
  | _, true => pure ()
  | 0, false => exhausted
  | fuel + 1, false => do
    delay .CHECK_BATCH_COMPLETION_TIMEOUT
    let isCompleted ← checkBatchCompletion batchId
    waitLoop batchId fuel isCompleted

/-- Waits until the batch has completed; `fuel` bounds the number of loop iterations. -/
def waitBatchExecutionCompletion (fuel : Nat) (batchId : Option String) : Js Unit := do
  if isFalsy batchId then return ()
  else
    let isCompleted ← checkBatchCompletion batchId
    waitLoop batchId fuel isCompleted

/-- Checks whether the batch has succeeded or failed. -/
def checkBatchExecutionResult (batchId : Option String) : Js Bool := do
  match batchId with
  | none => return false
  | some id =>
    if id = "" then return false
    else
      let getBatchesStatisticsResponse ← CamundaApiHttpClient.getBatchesStatistics id
      let completedBatch ← singleOrDefault getBatchesStatisticsResponse
      match completedBatch with
      | none => return true
      | some completedBatch =>
        return (completedBatch.failedJobs == 0 && completedBatch.remainingJobs == 0)

/-- Deletes the deployment of the process definition with the given id. -/
def deleteDeployment (processDefinitionId : Option String) : Js Unit := do
  if isFalsy processDefinitionId then return ()
  else
    let processDefinition ← CamundaApiHttpClient.getProcessDefinitionById processDefinitionId
    delay .DELETE_CAMUNDA_ENTITY_TIMEOUT
    match processDefinition with
    | none => throwJs .typeError
    | some processDefinition =>
      let _ ← CamundaApiHttpClient.deleteDeployment (some processDefinition.deploymentId)

/-- Deletes a failed batch: suspend, wait, delete. -/
def deleteFailedBatch (batchId : Option String) : Js Unit := do
  if isFalsy batchId then return ()
  else
    let _ ← CamundaApiHttpClient.suspendBatch batchId
    delay .DELETE_CAMUNDA_ENTITY_TIMEOUT
    let _ ← CamundaApiHttpClient.deleteBatch batchId

/-- Executes the migration of the process instances of one source version. -/
def executeProcessInstancesMigration (fuel : Nat)
    (sourceProcessDefinitionId targetProcessDefinitionId : Option String) :
    Js (Option MigrationResult) := do
  if isFalsy sourceProcessDefinitionId || isFalsy targetProcessDefinitionId then return none
  else
    let migrationBatch ← CamundaApiHttpClient.migrateProcessInstances
      sourceProcessDefinitionId targetProcessDefinitionId
    match migrationBatch with
    | none => throwJs .typeError
    | some migrationBatch =>
      waitBatchExecutionCompletion fuel (some migrationBatch.id)
      let isSuccessedMigrationBatch ← checkBatchExecutionResult (some migrationBatch.id)
      return some { migrationBatch, isSuccessedMigrationBatch }

/-- Converts the input data into the required format. -/
def prepareMigrateProcessInstancesRequest (request : List MigrationRequest) :
    Js (List MigrationRequest) := do
  match request.head? with
  | none => throwJs .typeError
  | some first =>
    if first.name = some "ALL" then
      let processDefinitions ←
        CamundaApiHttpClient.listProcessDefinitions { latestVersion := some true }
      return processDefinitions.map (fun x =>
        { name := some x.key, sourceProcessDefinitionId := .undefined,
          targetProcessDefinitionId := .undefined })
    else return request

/-- The body of the inner loop of `migrateProcessInstances`: one source id. -/
def migrateSourceProcessDefinition (fuel : Nat) (targetProcessDefinitionId : Option String)
    (currentSourceProcessDefinitionId : Option String) : Js Unit := do
  if currentSourceProcessDefinitionId ≠ targetProcessDefinitionId then
    let sourceProcessDefinitionInstances ←
      CamundaApiHttpClient.getProcessInstancesByProcessDefinitionId
        currentSourceProcessDefinitionId
    if sourceProcessDefinitionInstances.isNone ||
        sourceProcessDefinitionInstances == some [] then
      deleteDeployment currentSourceProcessDefinitionId
    else
      let r ← executeProcessInstancesMigration fuel currentSourceProcessDefinitionId
        targetProcessDefinitionId
      match r with
      | none => throwJs .typeError
      | some r =>
        if r.isSuccessedMigrationBatch then deleteDeployment currentSourceProcessDefinitionId
        else deleteFailedBatch (some r.migrationBatch.id)

/-- The inner loop `for (let j = 0; j < sourceProcessDefinitionIds.length; j += 1)`. -/
def migrateSourceProcessDefinitions (fuel : Nat) (targetProcessDefinitionId : Option String) :
    List (Option String) → Js Unit
  | [] => pure ()
  | currentSourceProcessDefinitionId :: rest => do
    migrateSourceProcessDefinition fuel targetProcessDefinitionId currentSourceProcessDefinitionId
    migrateSourceProcessDefinitions fuel targetProcessDefinitionId rest

/-- The body of the outer loop of `migrateProcessInstances`: one request. -/
def migrateProcessDefinition (fuel : Nat) (processDefinition : MigrationRequest) : Js Unit := do
  let ids ← getProcessDefinitionIdsForMigration (some processDefinition)
  match ids with
  | none => throwJs .typeError
  | some ids =>
    match ids.sourceProcessDefinitionIds with
    | none => throwJs .typeError
    | some sourceProcessDefinitionIds =>
      migrateSourceProcessDefinitions fuel ids.targetProcessDefinitionId
        sourceProcessDefinitionIds

/-- The outer loop `for (let i = 0; i < processDefinitions.length; i += 1)`. -/
def migrateProcessDefinitions (fuel : Nat) : List MigrationRequest → Js Unit
  | [] => pure ()
  | processDefinition :: rest => do
    migrateProcessDefinition fuel processDefinition
    migrateProcessDefinitions fuel rest

/-- Migrates process instances. -/
def migrateProcessInstances (fuel : Nat) (request : List MigrationRequest) : Js Unit := do
  let processDefinitions ← prepareMigrateProcessInstancesRequest request
  if processDefinitions.length = 0 then return ()
  else migrateProcessDefinitions fuel processDefinitions

/-! ## Observations on histories -/

/-- What an event does to the engine. -/
inductive EventKind where
  /-- Reading definitions, instances or batch statistics. -/
  | query
  /-- The gateway method that plans and submits a migration. -/
  | migration
  | planGeneration
  | batchSubmission
  | batchSuspension
  | batchDeletion
  | deploymentDeletion
  | wait
  deriving DecidableEq, Repr

/-- The kind of an event. -/
def Event.kind : Event → EventKind
  | .call (.getProcessInstancesByProcessDefinitionId _) => .query
  | .call (.getProcessDefinitionLastVersionIdByDefinitionKey _) => .query
  | .call (.getProcessDefinitionById _) => .query
  | .call (.listProcessDefinitions _) => .query
  | .call (.getBatchesStatistics _) => .query
  | .call (.migrateProcessInstances _ _) => .migration
  | .call (.generateMigrationPlan _ _) => .planGeneration
  | .call (.migrateProcessInstancesForMigrationPlan _) => .batchSubmission
  | .call (.deleteDeployment _) => .deploymentDeletion
  | .call (.suspendBatch _) => .batchSuspension
  | .call (.deleteBatch _) => .batchDeletion
  | .http (.getProcessInstances _) => .query
  | .http (.getProcessDefinitionByKey _) => .query
  | .http (.getProcessDefinition _) => .query
  | .http (.getProcessDefinitions _) => .query
  | .http (.getBatchStatistics _) => .query
  | .http (.postMigrationGenerate _ _ _) => .planGeneration
  | .http (.postMigrationExecuteAsync _ _ _) => .batchSubmission
  | .http (.deleteDeployment _) => .deploymentDeletion
  | .http (.putBatchSuspended _ _) => .batchSuspension
  | .http (.deleteBatch _) => .batchDeletion
  | .delay _ => .wait

/-- Every event a computation adds to the history, from any engine and any
history, satisfies `P`. -/
structure Emits {α : Type} (P : Event → Prop) (m : Js α) : Prop where
  frame : ∀ (e : Engine) (t : Trace),
    ∃ evs : List Event, (m e t).2 = t ++ evs ∧ ∀ ev ∈ evs, P ev

/-- The events of one reading of the statistics of batch `b`. -/
def pollEvents (b : String) : List Event :=
  [.call (.getBatchesStatistics b), .http (.getBatchStatistics b)]

/-- The history right before the reading number `k` (counted from 0) of a wait
for batch `b` that starts at history `t`: each earlier reading is followed by
one delay of the polling interval. -/
def historyBeforeReading (t : Trace) (b : String) : Nat → Trace
  | 0 => t
  | k + 1 => historyBeforeReading t b k ++ pollEvents b ++ [.delay .CHECK_BATCH_COMPLETION_TIMEOUT]

/-- The statistics the gateway hands over when asked for batch `b` at history `t`. -/
def statisticsAt (e : Engine) (t : Trace) (b : String) : List BatchStatistics :=
  match (CamundaApiHttpClient.getBatchesStatistics b e t).1 with
  | .value stats => stats
  | _ => []

/-- The reading number `k` of a wait for batch `b` that starts at history `t`. -/
def reading (e : Engine) (t : Trace) (b : String) (k : Nat) : List BatchStatistics :=
  statisticsAt e (historyBeforeReading t b k) b

/-- Completion of a batch in the words of the specification: the statistics
record is missing, or `totalJobs == completedJobs`, or `remainingJobs == failedJobs`. -/
def SpecBatchCompleted : Option BatchStatistics → Prop
  | none => True
  | some s => s.totalJobs = s.completedJobs ∨ s.remainingJobs = s.failedJobs

instance (record : Option BatchStatistics) : Decidable (SpecBatchCompleted record) :=
  match record with
  | none => isTrue trivial
  | some s =>
    inferInstanceAs (Decidable (s.totalJobs = s.completedJobs ∨ s.remainingJobs = s.failedJobs))

/-- Success of a batch in the words of the specification: the statistics record
is missing, or `failedJobs == 0` and `remainingJobs == 0`. -/
def SpecBatchSucceeded : Option BatchStatistics → Prop
  | none => True
  | some s => s.failedJobs = 0 ∧ s.remainingJobs = 0

instance (record : Option BatchStatistics) : Decidable (SpecBatchSucceeded record) :=
  match record with
  | none => isTrue trivial
  | some s => inferInstanceAs (Decidable (s.failedJobs = 0 ∧ s.remainingJobs = 0))

/-! ## Sample engines -/

/-- Version 1 of the sample definition. -/
def invoiceV1 : ProcessDefinition :=
  { id := "invoice-flow:1", key := "invoice-flow", version := 1, deploymentId := "deployment-1" }

/-- Version 2 of the sample definition. -/
def invoiceV2 : ProcessDefinition :=
  { id := "invoice-flow:2", key := "invoice-flow", version := 2, deploymentId := "deployment-2" }

/-- Does a definition pass the filters of `GET /process-definition`? -/
def ProcessDefinitionFilters.admits (filters : ProcessDefinitionFilters) (latest : Int)
    (d : ProcessDefinition) : Bool :=
  (match filters.key with
    | none => true
    | some key => d.key == key) &&
  (match filters.version with
    | none => true
    | some version => d.version == version) &&
  (match filters.latestVersion with
    | some true => d.version == latest
    | _ => true)

/-- An engine that cannot be reached: every request is rejected. -/
def unreachableEngine : Engine where
  processInstances _ _ := .rejected
  processDefinitionByKey _ _ := .rejected
  processDefinitionById _ _ := .rejected
  processDefinitions _ _ := .rejected
  migrationGenerate _ _ _ := .rejected
  migrationExecuteAsync _ _ := .rejected
  batchStatistics _ _ := .rejected
  deploymentDelete _ _ := .rejected
  batchSuspend _ _ := .rejected
  batchDelete _ _ := .rejected

/-- An engine with the two versions of `invoice-flow`, one running instance on
version 1, and a migration batch whose statistics show one open job at the first
two readings and are purged from the third reading on. -/
def invoiceEngine : Engine where
  processInstances _ id :=
    .resolved 200 (some (if id = "invoice-flow:1" then [{ id := "instance-1" }] else []))
  processDefinitionByKey _ key :=
    if key = "invoice-flow" then .resolved 200 invoiceV2 else .rejected
  processDefinitionById _ id :=
    if id = "invoice-flow:1" then .resolved 200 invoiceV1
    else if id = "invoice-flow:2" then .resolved 200 invoiceV2
    else .rejected
  processDefinitions _ filters :=
    .resolved 200 ([invoiceV1, invoiceV2].filter (filters.admits 2))
  migrationGenerate _ source target :=
    .resolved 200
      { sourceProcessDefinitionId := source, targetProcessDefinitionId := target,
        updateEventTriggers := true }
  migrationExecuteAsync _ _ := .resolved 200 { id := "batch-1" }
  batchStatistics t b :=
    .resolved 200
      (if 2 ≤ t.count (.http (.getBatchStatistics b)) then []
       else [{ id := b, totalJobs := 1, completedJobs := 0, remainingJobs := 1, failedJobs := 0 }])
  deploymentDelete _ _ := .resolved 204 ()
  batchSuspend _ _ := .resolved 204 ()
  batchDelete _ _ := .resolved 204 ()

/-- An engine of several tenants: the same key and version is listed once per tenant. -/
def tenantsEngine : Engine :=
  { invoiceEngine with
    processDefinitions := fun _ filters =>
      .resolved 200
        ([invoiceV1, { invoiceV1 with id := "invoice-flow:1:tenant-b" },
          invoiceV2, { invoiceV2 with id := "invoice-flow:2:tenant-b" }].filter
            (filters.admits 2)) }

/-- The sample engine, except that no definition record can be fetched by id. -/
def lostRecordEngine : Engine :=
  { invoiceEngine with processDefinitionById := fun _ _ => .rejected }

/-- The events of a failed batch cleanup for batch `b`. -/
def failedBatchCleanupEvents (b : String) : List Event :=
  [.call (.suspendBatch (some b)), .http (.putBatchSuspended b true),
   .delay .DELETE_CAMUNDA_ENTITY_TIMEOUT,
   .call (.deleteBatch (some b)), .http (.deleteBatch b)]

/-- The events of a deployment deletion once the definition record `d` is fetched. -/
def deploymentDeletionEvents (d : ProcessDefinition) : List Event :=
  [.delay .DELETE_CAMUNDA_ENTITY_TIMEOUT, .call (.deleteDeployment (some d.deploymentId))] ++
    (if d.deploymentId = "" then [] else [.http (.deleteDeployment d.deploymentId)])

/-- The sample engine, except that no process instance is running. -/
def idleEngine : Engine :=
  { invoiceEngine with processInstances := fun _ _ => .resolved 200 (some []) }

/-- Every request of the list resolves, when its turn comes in a run that starts
at history `t`, to source ids that all equal the resolved target id. -/
def AllAlreadyCurrent (e : Engine) : Trace → List MigrationRequest → Prop
  | _, [] => True
  | t, processDefinition :: rest =>
    ∃ sourceIds targetId t1,
      getProcessDefinitionIdsForMigration (some processDefinition) e t =
        (.value (some { sourceProcessDefinitionIds := some sourceIds,
                        targetProcessDefinitionId := targetId }), t1) ∧
      (∀ id ∈ sourceIds, id = targetId) ∧
      AllAlreadyCurrent e t1 rest

/-- The sample engine, except that the generation of a migration plan is rejected. -/
def planlessEngine : Engine :=
  { invoiceEngine with migrationGenerate := fun _ _ _ => .rejected }

/-- The request that names a definition key and no version. -/
def requestFor (key : String) : MigrationRequest :=
  { name := some key, sourceProcessDefinitionId := .undefined,
    targetProcessDefinitionId := .undefined }

/-- Version 3 of the sample definition. -/
def invoiceV3 : ProcessDefinition :=
  { id := "invoice-flow:3", key := "invoice-flow", version := 3, deploymentId := "deployment-3" }

/-- An engine with three versions of `invoice-flow`: version 1 has a running
instance, version 2 has none, version 3 is the latest, and the generation of a
migration plan is rejected. -/
def threeVersionsEngine : Engine :=
  { invoiceEngine with
    processDefinitionByKey := fun _ key =>
      if key = "invoice-flow" then .resolved 200 invoiceV3 else .rejected
    processDefinitionById := fun _ id =>
      if id = "invoice-flow:1" then .resolved 200 invoiceV1
      else if id = "invoice-flow:2" then .resolved 200 invoiceV2
      else if id = "invoice-flow:3" then .resolved 200 invoiceV3
      else .rejected
    processDefinitions := fun _ filters =>
      .resolved 200 ([invoiceV1, invoiceV2, invoiceV3].filter (filters.admits 3))
    migrationGenerate := fun _ _ _ => .rejected }

/-! ## The entry point: `main.js` -/

/-- The environment variables the entry point reads; a variable may be unset. -/
structure ProcessEnv where
  PROCESS_DEFINITION_NAME : Option String
  SOURCE_PROCESS_DEFINITION_ID : Option String
  TARGET_PROCESS_DEFINITION_ID : Option String
  deriving DecidableEq, Repr

/-- The value of `process.env.X`: a string, or undefined when the variable is unset. -/
def envValue : Option String → JsValue
  | none => .undefined
  | some s => .string s

/-- The request list the entry point passes to `migrateProcessInstances`. -/
def mainRequest (env : ProcessEnv) : List MigrationRequest :=
  [{ name := env.PROCESS_DEFINITION_NAME,
     sourceProcessDefinitionId := envValue env.SOURCE_PROCESS_DEFINITION_ID,
     targetProcessDefinitionId := envValue env.TARGET_PROCESS_DEFINITION_ID }]

/-- The entry point: one call of `migrateProcessInstances`; an error that escapes is logged. -/
def main (fuel : Nat) (env : ProcessEnv) : Js Unit := fun e t =>
  match migrateProcessInstances fuel (mainRequest env) e t with
  | (.thrown _, t1) => (.value (), t1)
  | r => r

/-! ## Observations on the cleanup of deployments -/

/-- The fetch of a definition record by id: the first thing the cleanup step
`deleteDeployment(processDefinitionId)` does for a non-empty id, and issued
nowhere else in the orchestrator. The event carries the id the step was invoked with. -/
def Event.startsCleanup : Event → Bool
  | .call (.getProcessDefinitionById _) => true
  | _ => false

/-- The event `ev` occurs in the history `T` right after the history `before`. -/
def OccursAfter (T before : Trace) (ev : Event) : Prop :=
  ∃ post, T = before ++ ev :: post

/-- The history `h` continues the history `h0`. -/
def Extends (h h0 : Trace) : Prop :=
  ∃ mid, h = h0 ++ mid

/-- The inner loop over the source ids `ids`, started at history `t`, reaches
the turn of `source` at history `h`: every source id before it was handled
without an error. -/
inductive ReachesSource (fuel : Nat) (e : Engine) (target : Option String) :
    List (Option String) → Trace → Option String → Trace → Prop where
  | here (source : Option String) (rest : List (Option String)) (t : Trace) :
      ReachesSource fuel e target (source :: rest) t source t
  | later (first : Option String) (rest : List (Option String)) (t t1 : Trace)
      (source : Option String) (h : Trace) :
      migrateSourceProcessDefinition fuel target first e t = (.value (), t1) →
      ReachesSource fuel e target rest t1 source h →
      ReachesSource fuel e target (first :: rest) t source h

/-- The outer loop over the requests, started at history `t`, reaches the turn
of `processDefinition` at history `h`: every request before it was handled
without an error. -/
inductive ReachesRequest (fuel : Nat) (e : Engine) :
    List MigrationRequest → Trace → MigrationRequest → Trace → Prop where
  | here (processDefinition : MigrationRequest) (rest : List MigrationRequest) (t : Trace) :
      ReachesRequest fuel e (processDefinition :: rest) t processDefinition t
  | later (first : MigrationRequest) (rest : List MigrationRequest) (t t1 : Trace)
      (processDefinition : MigrationRequest) (h : Trace) :
      migrateProcessDefinition fuel first e t = (.value (), t1) →
      ReachesRequest fuel e rest t1 processDefinition h →
      ReachesRequest fuel e (first :: rest) t processDefinition h

/-- Why the cleanup of `source` may start at the history `before`, in the pair
of `source` and `target` whose turn began at history `h`: before it, either the
gateway reported no running instances for `source` (an empty or a missing
list), or it reported running instances, a batch was submitted, the wait for it
returned and the batch was classified succeeded. -/
def CleanupJustified (fuel : Nat) (e : Engine) (target source : Option String)
    (h before : Trace) : Prop :=
  (∃ insts t1,
    CamundaApiHttpClient.getProcessInstancesByProcessDefinitionId source e h =
      (.value insts, t1) ∧
    (insts = none ∨ insts = some []) ∧ Extends before t1) ∨
  (∃ inst insts t1 batch t2 t3 t4,
    CamundaApiHttpClient.getProcessInstancesByProcessDefinitionId source e h =
      (.value (some (inst :: insts)), t1) ∧
    CamundaApiHttpClient.migrateProcessInstances source target e t1 =
      (.value (some batch), t2) ∧
    waitBatchExecutionCompletion fuel (some batch.id) e t2 = (.value (), t3) ∧
    checkBatchExecutionResult (some batch.id) e t3 = (.value true, t4) ∧
    Extends before t4)

/-- The cleanup that starts with the event `ev` at the history `before` belongs
to the request `processDefinition`, whose turn began at history `h0`: the
request resolved there to source ids and a target id, the inner loop reached one
of these source ids, different from the target id, the event is the fetch of the
definition record of that source id, and the cleanup is justified within the
pair of that source id. -/
def CleanupOfRequest (fuel : Nat) (e : Engine) (processDefinition : MigrationRequest)
    (h0 before : Trace) (ev : Event) : Prop :=
  ∃ sourceIds target h1 source h,
    getProcessDefinitionIdsForMigration (some processDefinition) e h0 =
      (.value (some { sourceProcessDefinitionIds := some sourceIds,
                      targetProcessDefinitionId := target }), h1) ∧
    ReachesSource fuel e target sourceIds h1 source h ∧
    source ∈ sourceIds ∧
    source ≠ target ∧
    ev = .call (.getProcessDefinitionById source) ∧
    CleanupJustified fuel e target source h before

/-- The sample engine, except that no process instance is running and no
definition record can be fetched by id. -/
def idleLostRecordEngine : Engine :=
  { idleEngine with processDefinitionById := fun _ _ => .rejected }

/-! ## Running computations -/

@[simp] theorem run_pure {α : Type} (a : α) (e : Engine) (t : Trace) :
    (pure a : Js α) e t = (.value a, t) := rfl

theorem run_bind {α β : Type} (m : Js α) (f : α → Js β) (e : Engine) (t : Trace) :
    (m >>= f) e t = Js.bind m f e t := rfl

@[simp] theorem run_emit (ev : Event) (e : Engine) (t : Trace) :
    emit ev e t = (.value (), t ++ [ev]) := rfl

@[simp] theorem run_delay (d : Timeout) (e : Engine) (t : Trace) :
    delay d e t = (.value (), t ++ [.delay d]) := rfl

@[simp] theorem run_throwJs {α : Type} (err : JsError) (e : Engine) (t : Trace) :
    (throwJs err : Js α) e t = (.thrown err, t) := rfl

@[simp] theorem run_exhausted {α : Type} (e : Engine) (t : Trace) :
    (exhausted : Js α) e t = (.outOfFuel, t) := rfl

@[simp] theorem run_send {α : Type} (r : HttpRequest) (respond : Engine → Trace → HttpResult α)
    (e : Engine) (t : Trace) : send r respond e t = (.value (respond e t), t ++ [.http r]) := rfl

theorem bind_value {α β : Type} {m : Js α} {f : α → Js β} {e : Engine} {t t1 : Trace} {a : α}
    (h : m e t = (.value a, t1)) : (m >>= f) e t = f a e t1 := by
  simp [run_bind, Js.bind, h]

theorem bind_thrown {α β : Type} {m : Js α} {f : α → Js β} {e : Engine} {t t1 : Trace}
    {err : JsError} (h : m e t = (.thrown err, t1)) : (m >>= f) e t = (.thrown err, t1) := by
  simp [run_bind, Js.bind, h]

theorem bind_outOfFuel {α β : Type} {m : Js α} {f : α → Js β} {e : Engine} {t t1 : Trace}
    (h : m e t = (.outOfFuel, t1)) : (m >>= f) e t = (.outOfFuel, t1) := by
  simp [run_bind, Js.bind, h]

/-! ## Frame rules -/

theorem Emits.pure {α : Type} {P : Event → Prop} (a : α) : Emits P (Pure.pure a : Js α) :=
  ⟨fun _ t => ⟨[], by simp, by simp⟩⟩

theorem Emits.throwJs {α : Type} {P : Event → Prop} (err : JsError) :
    Emits P (Camunda.throwJs err : Js α) :=
  ⟨fun _ t => ⟨[], by simp, by simp⟩⟩

theorem Emits.exhausted {α : Type} {P : Event → Prop} : Emits P (Camunda.exhausted : Js α) :=
  ⟨fun _ t => ⟨[], by simp, by simp⟩⟩

theorem Emits.emit {P : Event → Prop} {ev : Event} (h : P ev) : Emits P (Camunda.emit ev) :=
  ⟨fun _ t => ⟨[ev], by simp, by simpa using h⟩⟩

theorem Emits.delay {P : Event → Prop} {d : Timeout} (h : P (.delay d)) :
    Emits P (Camunda.delay d) :=
  Emits.emit h

theorem Emits.send {α : Type} {P : Event → Prop} {r : HttpRequest}
    {respond : Engine → Trace → HttpResult α} (h : P (.http r)) :
    Emits P (Camunda.send r respond) :=
  ⟨fun _ t => ⟨[.http r], by simp, by simpa using h⟩⟩

theorem Emits.bind {α β : Type} {P : Event → Prop} {m : Js α} {f : α → Js β}
    (hm : Emits P m) (hf : ∀ a, Emits P (f a)) : Emits P (m >>= f) := by
  constructor
  intro e t
  obtain ⟨evs, h1, h2⟩ := hm.frame e t
  rcases hr : m e t with ⟨c, t1⟩
  rw [hr] at h1
  simp only at h1
  cases c with
  | value a =>
    obtain ⟨evs2, h3, h4⟩ := (hf a).frame e t1
    refine ⟨evs ++ evs2, ?_, ?_⟩
    · rw [bind_value hr, h3, h1, List.append_assoc]
    · intro ev hev
      rcases List.mem_append.mp hev with h | h
      · exact h2 ev h
      · exact h4 ev h
  | thrown err => exact ⟨evs, by rw [bind_thrown hr, h1], h2⟩
  | outOfFuel => exact ⟨evs, by rw [bind_outOfFuel hr, h1], h2⟩

theorem Emits.mono {α : Type} {P Q : Event → Prop} {m : Js α} (h : Emits P m)
    (hPQ : ∀ ev, P ev → Q ev) : Emits Q m := by
  constructor
  intro e t
  obtain ⟨evs, h1, h2⟩ := h.frame e t
  exact ⟨evs, h1, fun ev hev => hPQ ev (h2 ev hev)⟩

theorem Emits.singleOrDefault {α : Type} {P : Event → Prop} (xs : List α) :
    Emits P (Camunda.singleOrDefault xs) := by
  match xs with
  | [] => exact Emits.pure _
  | [_] => exact Emits.pure _
  | _ :: _ :: _ => exact Emits.throwJs _

/-! ## The gateway never throws -/

theorem listProcessDefinitions_run (filters : ProcessDefinitionFilters) (e : Engine) (t : Trace) :
    ∃ defs, CamundaApiHttpClient.listProcessDefinitions filters e t =
      (.value defs, t ++ [.call (.listProcessDefinitions filters),
        .http (.getProcessDefinitions filters)]) := by
  simp [CamundaApiHttpClient.listProcessDefinitions, run_bind, Js.bind]

theorem getProcessDefinitionLastVersionIdByDefinitionKey_run (key : Option String) (e : Engine)
    (t : Trace) :
    ∃ latest t1, CamundaApiHttpClient.getProcessDefinitionLastVersionIdByDefinitionKey key e t =
      (.value latest, t1) := by
  unfold CamundaApiHttpClient.getProcessDefinitionLastVersionIdByDefinitionKey
  rcases key with _ | key
  · simp [run_bind, Js.bind]
  · by_cases h : key = "" <;> simp [run_bind, Js.bind, h]

theorem getBatchesStatistics_run (b : String) (e : Engine) (t : Trace) :
    CamundaApiHttpClient.getBatchesStatistics b e t =
      (.value (statisticsAt e t b), t ++ pollEvents b) := by
  simp [statisticsAt, CamundaApiHttpClient.getBatchesStatistics, run_bind, Js.bind, pollEvents]

/-! ## Version resolution -/

/-- C1: when the source version of the request is not given, the resolution
returns, for every engine and every history, the ids of all definitions the
gateway lists for the key `request.name`, in listing order, as source ids, and
the id the gateway reports as latest version of that key as target id. -/
theorem getProcessDefinitionIdsForMigration_without_source_version
    (processDefinition : MigrationRequest) (e : Engine) (t : Trace)
    (h : processDefinition.sourceProcessDefinitionId = .undefined) :
    ∃ listed latest t1 t2,
      CamundaApiHttpClient.listProcessDefinitions { key := processDefinition.name } e t =
        (.value listed, t1) ∧
      CamundaApiHttpClient.getProcessDefinitionLastVersionIdByDefinitionKey
        processDefinition.name e t1 = (.value latest, t2) ∧
      getProcessDefinitionIdsForMigration (some processDefinition) e t =
        (.value (some
          { sourceProcessDefinitionIds := some (listed.map (fun x => some x.id)),
            targetProcessDefinitionId := latest }), t2) := by
  obtain ⟨listed, h1⟩ := listProcessDefinitions_run { key := processDefinition.name } e t
  obtain ⟨latest, t2, h2⟩ :=
    getProcessDefinitionLastVersionIdByDefinitionKey_run processDefinition.name e
      (t ++ [.call (.listProcessDefinitions { key := processDefinition.name }),
        .http (.getProcessDefinitions { key := processDefinition.name })])
  refine ⟨listed, latest, _, t2, h1, h2, ?_⟩
  simp only [getProcessDefinitionIdsForMigration, h, JsValue.typeof]
  simp [run_bind, Js.bind, h1, h2]

/-- C1, at a concrete input: the request for `invoice-flow` against the sample engine. -/
theorem getProcessDefinitionIdsForMigration_without_source_version_witness :
    ∃ listed latest t1 t2,
      CamundaApiHttpClient.listProcessDefinitions { key := some "invoice-flow" } invoiceEngine [] =
        (.value listed, t1) ∧
      CamundaApiHttpClient.getProcessDefinitionLastVersionIdByDefinitionKey
        (some "invoice-flow") invoiceEngine t1 = (.value latest, t2) ∧
      getProcessDefinitionIdsForMigration
        (some { name := some "invoice-flow", sourceProcessDefinitionId := .undefined,
                targetProcessDefinitionId := .undefined }) invoiceEngine [] =
        (.value (some
          { sourceProcessDefinitionIds := some (listed.map (fun x => some x.id)),
            targetProcessDefinitionId := latest }), t2) :=
  getProcessDefinitionIdsForMigration_without_source_version
    { name := some "invoice-flow", sourceProcessDefinitionId := .undefined,
      targetProcessDefinitionId := .undefined } invoiceEngine [] rfl

/-- C2 as stated fails: an engine that lists the definition of key `invoice-flow`
at version 1 twice (once per tenant) makes the resolution of a request with
source version 1 raise instead of returning a list of length one. -/
theorem getProcessDefinitionIdsForMigration_raises_on_two_listed :
    getProcessDefinitionIdsForMigration
      (some { name := some "invoice-flow", sourceProcessDefinitionId := .number 1,
              targetProcessDefinitionId := .undefined }) tenantsEngine [] =
      (.thrown .moreThanOneElement,
        [.call (.listProcessDefinitions { key := some "invoice-flow", version := some 1 }),
         .http (.getProcessDefinitions { key := some "invoice-flow", version := some 1 })]) := by
  decide

/-- C2, amended: when the source version of the request is the number `sourceVersion`
and the gateway lists at most one definition for that key and version, the
resolution returns a list of length one holding the id of the listed definition,
or undefined when none is listed. The target id is, when the target version is
a number for which the gateway lists at most one definition, the id of that
definition (undefined when none is listed), and, when the target version is not
a number, the id the gateway reports as latest version of the key. -/
theorem getProcessDefinitionIdsForMigration_with_source_version
    (processDefinition : MigrationRequest) (e : Engine) (t : Trace) (sourceVersion : Int)
    (h : processDefinition.sourceProcessDefinitionId = .number sourceVersion) :
    ∃ sources t1,
      CamundaApiHttpClient.listProcessDefinitions
        { key := processDefinition.name, version := some sourceVersion } e t =
        (.value sources, t1) ∧
      (sources.length ≤ 1 →
        (∀ targetVersion,
          processDefinition.targetProcessDefinitionId = .number targetVersion →
          ∃ targets t2,
            CamundaApiHttpClient.listProcessDefinitions
              { key := processDefinition.name, version := some targetVersion } e t1 =
              (.value targets, t2) ∧
            (targets.length ≤ 1 →
              getProcessDefinitionIdsForMigration (some processDefinition) e t =
                (.value (some
                  { sourceProcessDefinitionIds := some [sources.head?.map (fun x => x.id)],
                    targetProcessDefinitionId := targets.head?.map (fun x => x.id) }), t2))) ∧
        (processDefinition.targetProcessDefinitionId.typeof ≠ "number" →
          ∃ latest t2,
            CamundaApiHttpClient.getProcessDefinitionLastVersionIdByDefinitionKey
              processDefinition.name e t1 = (.value latest, t2) ∧
            getProcessDefinitionIdsForMigration (some processDefinition) e t =
              (.value (some
                { sourceProcessDefinitionIds := some [sources.head?.map (fun x => x.id)],
                  targetProcessDefinitionId := latest }), t2))) := by
  obtain ⟨sources, h1⟩ := listProcessDefinitions_run
    { key := processDefinition.name, version := some sourceVersion } e t
  refine ⟨sources, _, h1, fun hlen => ⟨?_, ?_⟩⟩
  · intro targetVersion htv
    obtain ⟨targets, h2⟩ := listProcessDefinitions_run
      { key := processDefinition.name, version := some targetVersion } e
      (t ++ [.call (.listProcessDefinitions
          { key := processDefinition.name, version := some sourceVersion }),
        .http (.getProcessDefinitions
          { key := processDefinition.name, version := some sourceVersion })])
    refine ⟨targets, _, h2, fun hlen2 => ?_⟩
    simp only [getProcessDefinitionIdsForMigration, h, htv, JsValue.typeof]
    match sources, hlen, targets, hlen2 with
    | [], _, [], _ => simp [run_bind, Js.bind, h1, h2, singleOrDefault]
    | [], _, [_], _ => simp [run_bind, Js.bind, h1, h2, singleOrDefault]
    | [_], _, [], _ => simp [run_bind, Js.bind, h1, h2, singleOrDefault]
    | [_], _, [_], _ => simp [run_bind, Js.bind, h1, h2, singleOrDefault]
  · intro htv
    obtain ⟨latest, t2, h2⟩ :=
      getProcessDefinitionLastVersionIdByDefinitionKey_run processDefinition.name e
        (t ++ [.call (.listProcessDefinitions
            { key := processDefinition.name, version := some sourceVersion }),
          .http (.getProcessDefinitions
            { key := processDefinition.name, version := some sourceVersion })])
    refine ⟨latest, t2, h2, ?_⟩
    simp only [getProcessDefinitionIdsForMigration, h, JsValue.typeof]
    match sources, hlen with
    | [], _ =>
      cases htgt : processDefinition.targetProcessDefinitionId <;>
        simp_all [run_bind, Js.bind, singleOrDefault, JsValue.typeof]
    | [_], _ =>
      cases htgt : processDefinition.targetProcessDefinitionId <;>
        simp_all [run_bind, Js.bind, singleOrDefault, JsValue.typeof]

/-- C2 amended, at a concrete input: source version 1 of `invoice-flow` against the sample engine. -/
theorem getProcessDefinitionIdsForMigration_with_source_version_witness :
    ∃ sources t1,
      CamundaApiHttpClient.listProcessDefinitions
        { key := some "invoice-flow", version := some 1 } invoiceEngine [] =
        (.value sources, t1) ∧
      (sources.length ≤ 1 →
        (∀ targetVersion,
          JsValue.number 2 = .number targetVersion →
          ∃ targets t2,
            CamundaApiHttpClient.listProcessDefinitions
              { key := some "invoice-flow", version := some targetVersion } invoiceEngine t1 =
              (.value targets, t2) ∧
            (targets.length ≤ 1 →
              getProcessDefinitionIdsForMigration
                (some { name := some "invoice-flow", sourceProcessDefinitionId := .number 1,
                        targetProcessDefinitionId := .number 2 }) invoiceEngine [] =
                (.value (some
                  { sourceProcessDefinitionIds := some [sources.head?.map (fun x => x.id)],
                    targetProcessDefinitionId := targets.head?.map (fun x => x.id) }), t2))) ∧
        ((JsValue.number 2).typeof ≠ "number" →
          ∃ latest t2,
            CamundaApiHttpClient.getProcessDefinitionLastVersionIdByDefinitionKey
              (some "invoice-flow") invoiceEngine t1 = (.value latest, t2) ∧
            getProcessDefinitionIdsForMigration
              (some { name := some "invoice-flow", sourceProcessDefinitionId := .number 1,
                      targetProcessDefinitionId := .number 2 }) invoiceEngine [] =
              (.value (some
                { sourceProcessDefinitionIds := some [sources.head?.map (fun x => x.id)],
                  targetProcessDefinitionId := latest }), t2))) :=
  getProcessDefinitionIdsForMigration_with_source_version
    { name := some "invoice-flow", sourceProcessDefinitionId := .number 1,
      targetProcessDefinitionId := .number 2 } invoiceEngine [] 1 rfl

/-! ## Batch lifecycle -/

theorem checkBatchCompletion_run (e : Engine) (t : Trace) (b : String) (hb : b ≠ "")
    (hone : (statisticsAt e t b).length ≤ 1) :
    checkBatchCompletion (some b) e t =
      (.value (decide (SpecBatchCompleted (statisticsAt e t b).head?)), t ++ pollEvents b) := by
  simp only [checkBatchCompletion, hb, if_false]
  rw [bind_value (getBatchesStatistics_run b e t)]
  generalize statisticsAt e t b = stats at hone
  match stats, hone with
  | [], _ => simp [singleOrDefault, run_bind, Js.bind, SpecBatchCompleted]
  | [s], _ =>
    by_cases h1 : s.totalJobs = s.completedJobs <;>
      by_cases h2 : s.remainingJobs = s.failedJobs <;>
        simp [singleOrDefault, run_bind, Js.bind, SpecBatchCompleted, h1, h2]

theorem waitLoop_run (e : Engine) (t : Trace) (b : String) (hb : b ≠ "") :
    ∀ (d i fuel : Nat),
      (∀ j ≤ i + d, (reading e t b j).length ≤ 1) →
      (∀ j, i ≤ j → j < i + d → ¬ SpecBatchCompleted (reading e t b j).head?) →
      SpecBatchCompleted (reading e t b (i + d)).head? →
      waitLoop (some b) fuel (decide (SpecBatchCompleted (reading e t b i).head?)) e
          (historyBeforeReading t b i ++ pollEvents b) =
        if d ≤ fuel then (.value (), historyBeforeReading t b (i + d) ++ pollEvents b)
        else (.outOfFuel, historyBeforeReading t b (i + fuel) ++ pollEvents b) := by
  intro d
  induction d with
  | zero =>
    intro i fuel _ _ hk
    have hk1 : SpecBatchCompleted (reading e t b i).head? := by simpa using hk
    cases fuel <;> simp [hk1, waitLoop]
  | succ d ih =>
    intro i fuel hone hnot hk
    have hi : ¬ SpecBatchCompleted (reading e t b i).head? := hnot i (le_refl i) (by omega)
    cases fuel with
    | zero => simp [hi, waitLoop]
    | succ fuel =>
      have hcheck := checkBatchCompletion_run e (historyBeforeReading t b (i + 1)) b hb
        (hone (i + 1) (by omega))
      have hstep : waitLoop (some b) (fuel + 1) false e
          (historyBeforeReading t b i ++ pollEvents b) =
          waitLoop (some b) fuel (decide (SpecBatchCompleted (reading e t b (i + 1)).head?)) e
            (historyBeforeReading t b (i + 1) ++ pollEvents b) := by
        simp only [waitLoop]
        rw [bind_value (run_delay _ e _)]
        have : historyBeforeReading t b i ++ pollEvents b ++
            [Event.delay Timeout.CHECK_BATCH_COMPLETION_TIMEOUT] =
            historyBeforeReading t b (i + 1) := rfl
        rw [this, bind_value hcheck]
        rfl
      have hrec := ih (i + 1) fuel (fun j hj => hone j (by omega))
        (fun j h1 h2 => hnot j (by omega) (by omega))
        (by have : i + 1 + d = i + (d + 1) := by omega
            rw [this]; exact hk)
      simp only [hi, decide_False, hstep, hrec]
      have e1 : i + 1 + d = i + (d + 1) := by omega
      have e2 : i + 1 + fuel = i + (fuel + 1) := by omega
      by_cases hd : d ≤ fuel
      · simp [hd, e1]
      · simp [hd, e2]

/-- C3: for a non-empty batch id, `checkBatchCompletion` on a reading of at most
one record is true exactly when the record is missing, or `totalJobs ==
completedJobs`, or `remainingJobs == failedJobs`; and when the readings up to
number `k` hold at most one record each, none before `k` is completed and
reading `k` is, then `waitBatchExecutionCompletion` returns right after reading
`k`, having waited one polling interval between readings, with any fuel of at
least `k`, and is still polling when its fuel is smaller. The records
`10/3/7/7` and `10/10/0/0` (total, completed, remaining, failed) are completed. -/
theorem waitBatchExecutionCompletion_stops_at_first_completed_reading
    (e : Engine) (t : Trace) (b : String) (hb : b ≠ "") (k : Nat)
    (hone : ∀ j ≤ k, (reading e t b j).length ≤ 1)
    (hnot : ∀ j < k, ¬ SpecBatchCompleted (reading e t b j).head?)
    (hk : SpecBatchCompleted (reading e t b k).head?) :
    (∀ fuel, k ≤ fuel →
      waitBatchExecutionCompletion fuel (some b) e t =
        (.value (), historyBeforeReading t b k ++ pollEvents b)) ∧
    (∀ fuel, fuel < k →
      waitBatchExecutionCompletion fuel (some b) e t =
        (.outOfFuel, historyBeforeReading t b fuel ++ pollEvents b)) ∧
    (∀ j ≤ k,
      checkBatchCompletion (some b) e (historyBeforeReading t b j) =
        (.value (decide (SpecBatchCompleted (reading e t b j).head?)),
          historyBeforeReading t b j ++ pollEvents b)) ∧
    (∀ id : String,
      SpecBatchCompleted (some { id := id, totalJobs := 10, completedJobs := 3,
                                 remainingJobs := 7, failedJobs := 7 }) ∧
      SpecBatchCompleted (some { id := id, totalJobs := 10, completedJobs := 10,
                                 remainingJobs := 0, failedJobs := 0 })) := by
  have hwait : ∀ fuel, waitBatchExecutionCompletion fuel (some b) e t =
      if k ≤ fuel then (.value (), historyBeforeReading t b k ++ pollEvents b)
      else (.outOfFuel, historyBeforeReading t b fuel ++ pollEvents b) := by
    intro fuel
    have h0 := checkBatchCompletion_run e t b hb (hone 0 (Nat.zero_le k))
    have hloop := waitLoop_run e t b hb k 0 fuel (fun j hj => hone j (by omega))
      (fun j _ h2 => hnot j (by omega)) (by simpa using hk)
    simp only [Nat.zero_add] at hloop
    simp only [waitBatchExecutionCompletion, isFalsy, beq_iff_eq, hb, if_false]
    rw [bind_value h0]
    exact hloop
  refine ⟨fun fuel hf => ?_, fun fuel hf => ?_, fun j hj => ?_, fun id => ?_⟩
  · rw [hwait fuel, if_pos hf]
  · rw [hwait fuel, if_neg (by omega)]
  · exact checkBatchCompletion_run e (historyBeforeReading t b j) b hb (hone j hj)
  · constructor <;> simp [SpecBatchCompleted]

/-- C3, at a concrete input: the sample engine completes batch `batch-1` at reading 2. -/
theorem waitBatchExecutionCompletion_stops_at_first_completed_reading_witness :
    waitBatchExecutionCompletion 5 (some "batch-1") invoiceEngine [] =
      (.value (), historyBeforeReading [] "batch-1" 2 ++ pollEvents "batch-1") ∧
    waitBatchExecutionCompletion 1 (some "batch-1") invoiceEngine [] =
      (.outOfFuel, historyBeforeReading [] "batch-1" 1 ++ pollEvents "batch-1") :=
  have h := waitBatchExecutionCompletion_stops_at_first_completed_reading invoiceEngine []
    "batch-1" (by decide) 2 (by decide) (by decide) (by decide)
  ⟨h.1 5 (by decide), h.2.1 1 (by decide)⟩

theorem checkBatchExecutionResult_run (e : Engine) (t : Trace) (b : String) (hb : b ≠ "")
    (hone : (statisticsAt e t b).length ≤ 1) :
    checkBatchExecutionResult (some b) e t =
      (.value (decide (SpecBatchSucceeded (statisticsAt e t b).head?)), t ++ pollEvents b) := by
  simp only [checkBatchExecutionResult, hb, if_false]
  rw [bind_value (getBatchesStatistics_run b e t)]
  generalize statisticsAt e t b = stats at hone
  match stats, hone with
  | [], _ => simp [singleOrDefault, run_bind, Js.bind, SpecBatchSucceeded]
  | [s], _ =>
    by_cases h1 : s.failedJobs = 0 <;>
      by_cases h2 : s.remainingJobs = 0 <;>
        simp [singleOrDefault, run_bind, Js.bind, SpecBatchSucceeded, h1, h2]

/-- C4: for a non-empty batch id and a statistics reading of at most one record,
`checkBatchExecutionResult` returns true exactly when the record is missing or
`failedJobs == 0` and `remainingJobs == 0`, and false otherwise. The record
`10/10/0/0` (total, completed, remaining, failed) and a missing record are
succeeded, the record `10/3/7/7` is failed. -/
theorem checkBatchExecutionResult_classification
    (e : Engine) (t : Trace) (b : String) (hb : b ≠ "")
    (hone : (statisticsAt e t b).length ≤ 1) :
    (∃ succeeded,
      checkBatchExecutionResult (some b) e t = (.value succeeded, t ++ pollEvents b) ∧
      (succeeded = true ↔ SpecBatchSucceeded (statisticsAt e t b).head?)) ∧
    (∀ id : String,
      SpecBatchSucceeded (some { id := id, totalJobs := 10, completedJobs := 10,
                                 remainingJobs := 0, failedJobs := 0 }) ∧
      SpecBatchSucceeded none ∧
      ¬ SpecBatchSucceeded (some { id := id, totalJobs := 10, completedJobs := 3,
                                   remainingJobs := 7, failedJobs := 7 })) := by
  refine ⟨⟨_, checkBatchExecutionResult_run e t b hb hone, by simp⟩, fun id => ?_⟩
  simp [SpecBatchSucceeded]

/-- C4, at a concrete input: the first reading of the sample engine shows an open job. -/
theorem checkBatchExecutionResult_classification_witness :
    ∃ succeeded,
      checkBatchExecutionResult (some "batch-1") invoiceEngine [] =
        (.value succeeded, [] ++ pollEvents "batch-1") ∧
      (succeeded = true ↔ SpecBatchSucceeded (statisticsAt invoiceEngine [] "batch-1").head?) :=
  (checkBatchExecutionResult_classification invoiceEngine [] "batch-1" (by decide)
    (by decide)).1

theorem Emits.ite {α : Type} {P : Event → Prop} {c : Prop} [Decidable c] {m n : Js α}
    (hm : Emits P m) (hn : Emits P n) : Emits P (if c then m else n) := by
  split
  · exact hm
  · exact hn

theorem Emits.of_run {α : Type} {P : Event → Prop} {m : Js α} (h : Emits P m) {e : Engine}
    {t t1 : Trace} {c : Completion α} (hr : m e t = (c, t1)) :
    ∃ evs, t1 = t ++ evs ∧ ∀ ev ∈ evs, P ev := by
  obtain ⟨evs, h1, h2⟩ := h.frame e t
  rw [hr] at h1
  exact ⟨evs, h1, h2⟩

/-! ## What each step can add to the history -/

theorem emits_getProcessInstancesByProcessDefinitionId (id : Option String) :
    Emits (fun ev => ev.kind = .query)
      (CamundaApiHttpClient.getProcessInstancesByProcessDefinitionId id) := by
  unfold CamundaApiHttpClient.getProcessInstancesByProcessDefinitionId
  repeat' first
    | exact Emits.pure _
    | exact Emits.emit rfl
    | exact Emits.send rfl
    | apply Emits.bind
    | apply Emits.ite
    | intro _
    | split

theorem emits_getProcessDefinitionLastVersionIdByDefinitionKey (key : Option String) :
    Emits (fun ev => ev.kind = .query)
      (CamundaApiHttpClient.getProcessDefinitionLastVersionIdByDefinitionKey key) := by
  unfold CamundaApiHttpClient.getProcessDefinitionLastVersionIdByDefinitionKey
  repeat' first
    | exact Emits.pure _
    | exact Emits.emit rfl
    | exact Emits.send rfl
    | apply Emits.bind
    | apply Emits.ite
    | intro _
    | split

theorem emits_getProcessDefinitionById (id : Option String) :
    Emits (fun ev => ev.kind = .query) (CamundaApiHttpClient.getProcessDefinitionById id) := by
  unfold CamundaApiHttpClient.getProcessDefinitionById
  repeat' first
    | exact Emits.pure _
    | exact Emits.emit rfl
    | exact Emits.send rfl
    | apply Emits.bind
    | apply Emits.ite
    | intro _
    | split

theorem emits_listProcessDefinitions (filters : ProcessDefinitionFilters) :
    Emits (fun ev => ev.kind = .query) (CamundaApiHttpClient.listProcessDefinitions filters) := by
  unfold CamundaApiHttpClient.listProcessDefinitions
  repeat' first
    | exact Emits.pure _
    | exact Emits.emit rfl
    | exact Emits.send rfl
    | apply Emits.bind
    | intro _

theorem emits_getBatchesStatistics (b : String) :
    Emits (fun ev => ev.kind = .query) (CamundaApiHttpClient.getBatchesStatistics b) := by
  unfold CamundaApiHttpClient.getBatchesStatistics
  repeat' first
    | exact Emits.pure _
    | exact Emits.emit rfl
    | exact Emits.send rfl
    | apply Emits.bind
    | intro _

theorem emits_migrateProcessInstances (source target : Option String) :
    Emits (fun ev => ev.kind = .migration ∨ ev.kind = .planGeneration ∨
        ev.kind = .batchSubmission)
      (CamundaApiHttpClient.migrateProcessInstances source target) := by
  unfold CamundaApiHttpClient.migrateProcessInstances
    CamundaApiHttpClient.generateMigrationPlan
    CamundaApiHttpClient.migrateProcessInstancesForMigrationPlan
  repeat' first
    | exact Emits.pure _
    | exact Emits.emit (by simp [Event.kind])
    | exact Emits.send (by simp [Event.kind])
    | apply Emits.bind
    | apply Emits.ite
    | intro _
    | split

theorem emits_deleteDeployment_client (id : Option String) :
    Emits (fun ev => ev.kind = .deploymentDeletion) (CamundaApiHttpClient.deleteDeployment id) := by
  unfold CamundaApiHttpClient.deleteDeployment
  repeat' first
    | exact Emits.pure _
    | exact Emits.emit rfl
    | exact Emits.send rfl
    | apply Emits.bind
    | apply Emits.ite
    | intro _
    | split

theorem emits_suspendBatch (id : Option String) :
    Emits (fun ev => ev.kind = .batchSuspension) (CamundaApiHttpClient.suspendBatch id) := by
  unfold CamundaApiHttpClient.suspendBatch
  repeat' first
    | exact Emits.pure _
    | exact Emits.emit rfl
    | exact Emits.send rfl
    | apply Emits.bind
    | apply Emits.ite
    | intro _
    | split

theorem emits_deleteBatch (id : Option String) :
    Emits (fun ev => ev.kind = .batchDeletion) (CamundaApiHttpClient.deleteBatch id) := by
  unfold CamundaApiHttpClient.deleteBatch
  repeat' first
    | exact Emits.pure _
    | exact Emits.emit rfl
    | exact Emits.send rfl
    | apply Emits.bind
    | apply Emits.ite
    | intro _
    | split

theorem emits_getProcessDefinitionIdsForMigration (processDefinition : Option MigrationRequest) :
    Emits (fun ev => ev.kind = .query)
      (getProcessDefinitionIdsForMigration processDefinition) := by
  unfold getProcessDefinitionIdsForMigration
  repeat' first
    | exact Emits.pure _
    | exact Emits.singleOrDefault _
    | exact emits_listProcessDefinitions _
    | exact emits_getProcessDefinitionLastVersionIdByDefinitionKey _
    | apply Emits.bind
    | apply Emits.ite
    | intro _
    | split

theorem emits_checkBatchCompletion (batchId : Option String) :
    Emits (fun ev => ev.kind = .query) (checkBatchCompletion batchId) := by
  unfold checkBatchCompletion
  repeat' first
    | exact Emits.pure _
    | exact Emits.singleOrDefault _
    | exact emits_getBatchesStatistics _
    | apply Emits.bind
    | apply Emits.ite
    | intro _
    | split

theorem emits_checkBatchExecutionResult (batchId : Option String) :
    Emits (fun ev => ev.kind = .query) (checkBatchExecutionResult batchId) := by
  unfold checkBatchExecutionResult
  repeat' first
    | exact Emits.pure _
    | exact Emits.singleOrDefault _
    | exact emits_getBatchesStatistics _
    | apply Emits.bind
    | apply Emits.ite
    | intro _
    | split

theorem emits_waitLoop (batchId : Option String) (fuel : Nat) (isCompleted : Bool) :
    Emits (fun ev => ev.kind = .query ∨ ev.kind = .wait) (waitLoop batchId fuel isCompleted) := by
  induction fuel generalizing isCompleted with
  | zero =>
    cases isCompleted
    · exact Emits.exhausted
    · exact Emits.pure _
  | succ fuel ih =>
    cases isCompleted
    · unfold waitLoop
      refine Emits.bind (Emits.delay (Or.inr rfl)) (fun _ => ?_)
      exact Emits.bind ((emits_checkBatchCompletion _).mono (fun _ h => Or.inl h)) (fun c => ih c)
    · exact Emits.pure _

theorem emits_waitBatchExecutionCompletion (fuel : Nat) (batchId : Option String) :
    Emits (fun ev => ev.kind = .query ∨ ev.kind = .wait)
      (waitBatchExecutionCompletion fuel batchId) := by
  unfold waitBatchExecutionCompletion
  refine Emits.ite (Emits.pure _) ?_
  exact Emits.bind ((emits_checkBatchCompletion _).mono (fun _ h => Or.inl h))
    (fun c => emits_waitLoop _ _ c)

theorem emits_deleteDeployment (id : Option String) :
    Emits (fun ev => ev.kind = .query ∨ ev.kind = .wait ∨ ev.kind = .deploymentDeletion)
      (deleteDeployment id) := by
  unfold deleteDeployment
  repeat' first
    | exact Emits.pure _
    | exact Emits.throwJs _
    | exact Emits.delay (by simp [Event.kind])
    | exact (emits_getProcessDefinitionById _).mono (fun _ h => Or.inl h)
    | exact (emits_deleteDeployment_client _).mono (fun _ h => Or.inr (Or.inr h))
    | apply Emits.bind
    | apply Emits.ite
    | intro _
    | split

theorem emits_deleteFailedBatch (id : Option String) :
    Emits (fun ev => ev.kind = .batchSuspension ∨ ev.kind = .wait ∨ ev.kind = .batchDeletion)
      (deleteFailedBatch id) := by
  unfold deleteFailedBatch
  repeat' first
    | exact Emits.pure _
    | exact Emits.delay (by simp [Event.kind])
    | exact (emits_suspendBatch _).mono (fun _ h => Or.inl h)
    | exact (emits_deleteBatch _).mono (fun _ h => Or.inr (Or.inr h))
    | apply Emits.bind
    | apply Emits.ite
    | intro _

/-! ## Cleanup -/

theorem deleteDeployment_run_fetched (e : Engine) (t t1 : Trace) (id : Option String)
    (d : ProcessDefinition) (hid : isFalsy id = false)
    (hfetch : CamundaApiHttpClient.getProcessDefinitionById id e t = (.value (some d), t1)) :
    deleteDeployment id e t = (.value (), t1 ++ deploymentDeletionEvents d) := by
  simp only [deleteDeployment, hid]
  simp only [Bool.false_eq_true, if_false]
  rw [bind_value hfetch]
  by_cases hd : d.deploymentId = "" <;>
    simp [run_bind, Js.bind, CamundaApiHttpClient.deleteDeployment, deploymentDeletionEvents, hd]

theorem deleteFailedBatch_run (e : Engine) (t : Trace) (b : String) (hb : b ≠ "") :
    deleteFailedBatch (some b) e t = (.value (), t ++ failedBatchCleanupEvents b) := by
  simp [deleteFailedBatch, isFalsy, hb, run_bind, Js.bind, CamundaApiHttpClient.suspendBatch,
    CamundaApiHttpClient.deleteBatch, failedBatchCleanupEvents]

theorem migrateProcessInstances_client_some (e : Engine) (t t1 : Trace)
    (source target : Option String) (batch : Batch)
    (h : CamundaApiHttpClient.migrateProcessInstances source target e t =
      (.value (some batch), t1)) :
    isFalsy source = false ∧ isFalsy target = false := by
  by_contra hcon
  have hor : (isFalsy source || isFalsy target) = true := by
    cases h1 : isFalsy source <;> cases h2 : isFalsy target <;> simp_all
  simp [CamundaApiHttpClient.migrateProcessInstances, hor, run_bind, Js.bind] at h

theorem executeProcessInstancesMigration_run (fuel : Nat) (e : Engine) (t t1 t2 t3 : Trace)
    (source target : Option String) (batch : Batch) (succeeded : Bool)
    (hbatch : CamundaApiHttpClient.migrateProcessInstances source target e t =
      (.value (some batch), t1))
    (hwait : waitBatchExecutionCompletion fuel (some batch.id) e t1 = (.value (), t2))
    (hcheck : checkBatchExecutionResult (some batch.id) e t2 = (.value succeeded, t3)) :
    executeProcessInstancesMigration fuel source target e t =
      (.value (some { migrationBatch := batch, isSuccessedMigrationBatch := succeeded }), t3) := by
  obtain ⟨h1, h2⟩ := migrateProcessInstances_client_some e t t1 source target batch hbatch
  simp only [executeProcessInstancesMigration, h1, h2, Bool.or_self, Bool.false_eq_true,
    if_false]
  rw [bind_value hbatch]
  simp only
  rw [bind_value hwait, bind_value hcheck]
  rfl

/-! ## One source id -/

/-- C5, amended: for a source id that differs from the target id, for which
the gateway reports at least one running instance and returns a batch with a
non-empty id, and whose batch wait returns: when the batch is classified
succeeded, no suspendBatch and no deleteBatch call or request is issued for the
pair, and, once the gateway returns the definition record of the source id, the
pair ends with the settle delay and the deleteDeployment call for the
deployment of that record; when the batch is classified failed, the pair ends
with suspendBatch, the settle delay and deleteBatch on the batch id, in that
order, and no deleteDeployment call or request is issued for the pair. -/
theorem migrateSourceProcessDefinition_after_batch
    (fuel : Nat) (e : Engine) (t t1 t2 t3 t4 : Trace) (source target : Option String)
    (hne : source ≠ target)
    (inst : ProcessInstance) (insts : List ProcessInstance)
    (hinst : CamundaApiHttpClient.getProcessInstancesByProcessDefinitionId source e t =
      (.value (some (inst :: insts)), t1))
    (batch : Batch) (hid : batch.id ≠ "")
    (hbatch : CamundaApiHttpClient.migrateProcessInstances source target e t1 =
      (.value (some batch), t2))
    (hwait : waitBatchExecutionCompletion fuel (some batch.id) e t2 = (.value (), t3))
    (succeeded : Bool)
    (hcheck : checkBatchExecutionResult (some batch.id) e t3 = (.value succeeded, t4)) :
    (succeeded = true →
      (∀ d t5,
        CamundaApiHttpClient.getProcessDefinitionById source e t4 = (.value (some d), t5) →
        migrateSourceProcessDefinition fuel target source e t =
          (.value (), t5 ++ deploymentDeletionEvents d)) ∧
      (∀ ev ∈ (migrateSourceProcessDefinition fuel target source e t).2.drop t.length,
        ev.kind ≠ .batchSuspension ∧ ev.kind ≠ .batchDeletion)) ∧
    (succeeded = false →
      migrateSourceProcessDefinition fuel target source e t =
        (.value (), t4 ++ failedBatchCleanupEvents batch.id) ∧
      (∀ ev ∈ (migrateSourceProcessDefinition fuel target source e t).2.drop t.length,
        ev.kind ≠ .deploymentDeletion)) := by
  have hexec := executeProcessInstancesMigration_run fuel e t1 t2 t3 t4 source target batch
    succeeded hbatch hwait hcheck
  obtain ⟨hs, _⟩ := migrateProcessInstances_client_some e t1 t2 source target batch hbatch
  have hrun : migrateSourceProcessDefinition fuel target source e t =
      (if succeeded then deleteDeployment source else deleteFailedBatch (some batch.id)) e t4 := by
    simp only [migrateSourceProcessDefinition, hne, ne_eq, not_false_eq_true, if_true]
    rw [bind_value hinst]
    simp only [Option.isNone_some, Bool.false_or]
    rw [if_neg (by simp)]
    rw [bind_value hexec]
  obtain ⟨a, ha, hka⟩ := (emits_getProcessInstancesByProcessDefinitionId source).of_run hinst
  obtain ⟨b, hb, hkb⟩ := (emits_migrateProcessInstances source target).of_run hbatch
  obtain ⟨c, hc, hkc⟩ := (emits_waitBatchExecutionCompletion fuel (some batch.id)).of_run hwait
  obtain ⟨d, hd, hkd⟩ := (emits_checkBatchExecutionResult (some batch.id)).of_run hcheck
  have ht4 : t4 = t ++ (a ++ b ++ c ++ d) := by
    rw [hd, hc, hb, ha]; simp
  have hpre : ∀ ev ∈ a ++ b ++ c ++ d, ev.kind = .query ∨ ev.kind = .wait ∨
      ev.kind = .migration ∨ ev.kind = .planGeneration ∨ ev.kind = .batchSubmission := by
    intro ev hev
    simp only [List.mem_append] at hev
    rcases hev with ((h | h) | h) | h
    · exact Or.inl (hka ev h)
    · rcases hkb ev h with h | h | h <;> simp [h]
    · rcases hkc ev h with h | h <;> simp [h]
    · exact Or.inl (hkd ev h)
  refine ⟨fun hsucc => ⟨?_, ?_⟩, fun hfail => ⟨?_, ?_⟩⟩
  · intro d t5 hfetch
    rw [hrun, hsucc]
    exact deleteDeployment_run_fetched e t4 t5 source d hs hfetch
  · obtain ⟨x, hx, hkx⟩ := (emits_deleteDeployment source).frame e t4
    rw [hrun, hsucc]
    simp only [if_true]
    rw [hx, ht4, List.append_assoc, List.drop_left]
    intro ev hev
    rcases List.mem_append.mp hev with h | h
    · rcases hpre ev h with h | h | h | h | h <;> simp [h]
    · rcases hkx ev h with h | h | h <;> simp [h]
  · rw [hrun, hfail]
    exact deleteFailedBatch_run e t4 batch.id hid
  · rw [hrun, hfail]
    simp only [Bool.false_eq_true, if_false]
    rw [deleteFailedBatch_run e t4 batch.id hid, ht4, List.append_assoc, List.drop_left]
    intro ev hev
    rcases List.mem_append.mp hev with h | h
    · rcases hpre ev h with h | h | h | h | h <;> simp [h]
    · simp only [failedBatchCleanupEvents, List.mem_cons, List.mem_singleton,
        List.not_mem_nil, or_false] at h
      rcases h with h | h | h | h | h <;> simp [h, Event.kind]

/-- C5 as stated fails: on an engine that reports a running instance on version 1,
submits the batch and purges its statistics (classified succeeded), but returns
no definition record for the source id, the pair raises after the fetch and the
settle delay, and no deleteDeployment call or request is issued. -/
theorem migrateSourceProcessDefinition_raises_when_record_not_fetched :
    ∃ t1 t2 t3 t4,
      CamundaApiHttpClient.getProcessInstancesByProcessDefinitionId (some "invoice-flow:1")
        lostRecordEngine [] = (.value (some [{ id := "instance-1" }]), t1) ∧
      CamundaApiHttpClient.migrateProcessInstances (some "invoice-flow:1")
        (some "invoice-flow:2") lostRecordEngine t1 = (.value (some { id := "batch-1" }), t2) ∧
      waitBatchExecutionCompletion 5 (some "batch-1") lostRecordEngine t2 = (.value (), t3) ∧
      checkBatchExecutionResult (some "batch-1") lostRecordEngine t3 = (.value true, t4) ∧
      migrateSourceProcessDefinition 5 (some "invoice-flow:2") (some "invoice-flow:1")
        lostRecordEngine [] =
        (.thrown .typeError,
          t4 ++ [.call (.getProcessDefinitionById (some "invoice-flow:1")),
                 .http (.getProcessDefinition "invoice-flow:1"),
                 .delay .DELETE_CAMUNDA_ENTITY_TIMEOUT]) ∧
      ∀ ev ∈ (migrateSourceProcessDefinition 5 (some "invoice-flow:2") (some "invoice-flow:1")
        lostRecordEngine []).2, ev.kind ≠ .deploymentDeletion :=
  ⟨_, _, _, _, rfl, rfl, rfl, rfl, rfl, by decide⟩

/-- C5 amended, at a concrete input: scenario A on the sample engine. -/
theorem migrateSourceProcessDefinition_after_batch_witness :
    migrateSourceProcessDefinition 5 (some "invoice-flow:2") (some "invoice-flow:1")
        invoiceEngine [] =
      (.value (),
        [.call (.getProcessInstancesByProcessDefinitionId (some "invoice-flow:1")),
         .http (.getProcessInstances "invoice-flow:1"),
         .call (.migrateProcessInstances (some "invoice-flow:1") (some "invoice-flow:2")),
         .call (.generateMigrationPlan (some "invoice-flow:1") (some "invoice-flow:2")),
         .http (.postMigrationGenerate "invoice-flow:1" "invoice-flow:2" true),
         .call (.migrateProcessInstancesForMigrationPlan
           (some { sourceProcessDefinitionId := "invoice-flow:1",
                   targetProcessDefinitionId := "invoice-flow:2",
                   updateEventTriggers := true })),
         .http (.postMigrationExecuteAsync "invoice-flow:1"
           { sourceProcessDefinitionId := "invoice-flow:1",
             targetProcessDefinitionId := "invoice-flow:2",
             updateEventTriggers := true } true)] ++
        historyBeforeReading [] "batch-1" 2 ++ pollEvents "batch-1" ++ pollEvents "batch-1" ++
        [.call (.getProcessDefinitionById (some "invoice-flow:1")),
         .http (.getProcessDefinition "invoice-flow:1")] ++
        deploymentDeletionEvents invoiceV1) :=
  ((migrateSourceProcessDefinition_after_batch 5 invoiceEngine [] _ _ _ _
    (some "invoice-flow:1") (some "invoice-flow:2") (by decide)
    { id := "instance-1" } [] rfl { id := "batch-1" } (by decide) rfl rfl true rfl).1 rfl).1
    invoiceV1 _ rfl

/-- C6 as stated fails: on an engine that reports no running instances and
returns no definition record, the pair of version 1 raises after the fetch and
the settle delay without any deleteDeployment call or request; and for an
undefined source id, for which the gateway reports no running instances without
asking the engine, the pair returns after the instance query and deletes nothing. -/
theorem migrateSourceProcessDefinition_without_instances_deletes_nothing :
    (∃ t1,
      CamundaApiHttpClient.getProcessInstancesByProcessDefinitionId (some "invoice-flow:1")
        idleLostRecordEngine [] = (.value (some []), t1) ∧
      migrateSourceProcessDefinition 5 (some "invoice-flow:2") (some "invoice-flow:1")
        idleLostRecordEngine [] =
        (.thrown .typeError,
          t1 ++ [.call (.getProcessDefinitionById (some "invoice-flow:1")),
                 .http (.getProcessDefinition "invoice-flow:1"),
                 .delay .DELETE_CAMUNDA_ENTITY_TIMEOUT]) ∧
      ∀ ev ∈ (migrateSourceProcessDefinition 5 (some "invoice-flow:2")
        (some "invoice-flow:1") idleLostRecordEngine []).2, ev.kind ≠ .deploymentDeletion) ∧
    migrateSourceProcessDefinition 5 (some "invoice-flow:2") none idleEngine [] =
      (.value (), [.call (.getProcessInstancesByProcessDefinitionId none)]) :=
  ⟨⟨_, rfl, rfl, by decide⟩, by decide⟩

/-- C6, amended: for a source id that differs from the target id and for which
the gateway reports no running instances (an empty or a missing list), no
migration plan is generated and no batch is submitted for the pair: after the
instance query the pair runs exactly the cleanup step `deleteDeployment` for
that source id; and when the source id is non-empty and the gateway returns its
definition record, the pair ends with the fetch, the settle delay and the
deleteDeployment call for the deployment of that record. -/
theorem migrateSourceProcessDefinition_without_instances
    (fuel : Nat) (e : Engine) (t t1 : Trace) (source target : Option String)
    (hne : source ≠ target) (insts : Option (List ProcessInstance))
    (hinst : CamundaApiHttpClient.getProcessInstancesByProcessDefinitionId source e t =
      (.value insts, t1))
    (hnone : insts = none ∨ insts = some []) :
    migrateSourceProcessDefinition fuel target source e t = deleteDeployment source e t1 ∧
    (∀ ev ∈ t1.drop t.length, ev.kind = .query) ∧
    (∀ ev ∈ (migrateSourceProcessDefinition fuel target source e t).2.drop t.length,
      ev.kind ≠ .migration ∧ ev.kind ≠ .planGeneration ∧ ev.kind ≠ .batchSubmission) ∧
    (∀ d t2, isFalsy source = false →
      CamundaApiHttpClient.getProcessDefinitionById source e t1 = (.value (some d), t2) →
      migrateSourceProcessDefinition fuel target source e t =
        (.value (), t2 ++ deploymentDeletionEvents d)) := by
  have hrun : migrateSourceProcessDefinition fuel target source e t =
      deleteDeployment source e t1 := by
    simp only [migrateSourceProcessDefinition, hne, ne_eq, not_false_eq_true, if_true]
    rw [bind_value hinst]
    rcases hnone with h | h <;> simp [h]
  obtain ⟨a, ha, hka⟩ := (emits_getProcessInstancesByProcessDefinitionId source).of_run hinst
  obtain ⟨x, hx, hkx⟩ := (emits_deleteDeployment source).frame e t1
  refine ⟨hrun, ?_, ?_, ?_⟩
  · rw [ha, List.drop_left]
    exact hka
  · rw [hrun, hx, ha, List.append_assoc, List.drop_left]
    intro ev hev
    rcases List.mem_append.mp hev with h | h
    · simp [hka ev h]
    · rcases hkx ev h with h | h | h <;> simp [h]
  · intro d t2 hs hfetch
    rw [hrun]
    exact deleteDeployment_run_fetched e t1 t2 source d hs hfetch

/-- C6 amended, at a concrete input: version 1 of the sample definition without running
instances. -/
theorem migrateSourceProcessDefinition_without_instances_witness :
    migrateSourceProcessDefinition 5 (some "invoice-flow:2") (some "invoice-flow:1")
        idleEngine [] =
      (.value (),
        [.call (.getProcessInstancesByProcessDefinitionId (some "invoice-flow:1")),
         .http (.getProcessInstances "invoice-flow:1"),
         .call (.getProcessDefinitionById (some "invoice-flow:1")),
         .http (.getProcessDefinition "invoice-flow:1")] ++
        deploymentDeletionEvents invoiceV1) :=
  (migrateSourceProcessDefinition_without_instances 5 idleEngine [] _
    (some "invoice-flow:1") (some "invoice-flow:2") (by decide) (some []) rfl
    (Or.inr rfl)).2.2.2 invoiceV1 _ rfl rfl

/-! ## Requests that are already current -/

theorem migrateSourceProcessDefinitions_all_current (fuel : Nat) (e : Engine) (t : Trace)
    (target : Option String) (sourceIds : List (Option String))
    (h : ∀ id ∈ sourceIds, id = target) :
    migrateSourceProcessDefinitions fuel target sourceIds e t = (.value (), t) := by
  induction sourceIds with
  | nil => rfl
  | cons id rest ih =>
    have hid : id = target := h id (List.mem_cons_self _ _)
    have hbody : migrateSourceProcessDefinition fuel target id e t = (.value (), t) := by
      simp [migrateSourceProcessDefinition, hid]
    simp only [migrateSourceProcessDefinitions]
    rw [bind_value hbody]
    exact ih (fun x hx => h x (List.mem_cons_of_mem _ hx))

theorem migrateProcessDefinitions_all_current (fuel : Nat) (e : Engine)
    (processDefinitions : List MigrationRequest) :
    ∀ t, AllAlreadyCurrent e t processDefinitions →
      ∃ evs, migrateProcessDefinitions fuel processDefinitions e t = (.value (), t ++ evs) ∧
        ∀ ev ∈ evs, ev.kind = .query := by
  induction processDefinitions with
  | nil => intro t _; exact ⟨[], by simp [migrateProcessDefinitions], by simp⟩
  | cons pd rest ih =>
    intro t hall
    obtain ⟨sourceIds, targetId, t1, hres, hsame, hrest⟩ := hall
    obtain ⟨a, ha, hka⟩ := (emits_getProcessDefinitionIdsForMigration (some pd)).of_run hres
    obtain ⟨evs, hevs, hk⟩ := ih t1 hrest
    have hbody : migrateProcessDefinition fuel pd e t = (.value (), t1) := by
      simp only [migrateProcessDefinition]
      rw [bind_value hres]
      exact migrateSourceProcessDefinitions_all_current fuel e t1 targetId sourceIds hsame
    refine ⟨a ++ evs, ?_, ?_⟩
    · simp only [migrateProcessDefinitions]
      rw [bind_value hbody, hevs, ha, List.append_assoc]
    · intro ev hev
      rcases List.mem_append.mp hev with h | h
      · exact hka ev h
      · exact hk ev h

theorem emits_prepareMigrateProcessInstancesRequest (request : List MigrationRequest) :
    Emits (fun ev => ev.kind = .query) (prepareMigrateProcessInstancesRequest request) := by
  unfold prepareMigrateProcessInstancesRequest
  repeat' first
    | exact Emits.pure _
    | exact Emits.throwJs _
    | exact emits_listProcessDefinitions _
    | apply Emits.bind
    | apply Emits.ite
    | intro _
    | split

/-- C7: when every request of the expanded list resolves, at its turn, to source
ids that all equal the resolved target id (an empty source id list included),
`migrateProcessInstances` returns without raising and adds to the history no
plan generation, no batch submission, no suspendBatch, no deleteBatch and no
deleteDeployment call or request. -/
theorem migrateProcessInstances_no_effect_when_current
    (fuel : Nat) (e : Engine) (t t0 : Trace) (request processDefinitions : List MigrationRequest)
    (hprep : prepareMigrateProcessInstancesRequest request e t = (.value processDefinitions, t0))
    (hall : AllAlreadyCurrent e t0 processDefinitions) :
    ∃ t1, migrateProcessInstances fuel request e t = (.value (), t1) ∧
      ∀ ev ∈ t1.drop t.length,
        ev.kind ≠ .migration ∧ ev.kind ≠ .planGeneration ∧ ev.kind ≠ .batchSubmission ∧
        ev.kind ≠ .batchSuspension ∧ ev.kind ≠ .batchDeletion ∧
        ev.kind ≠ .deploymentDeletion := by
  obtain ⟨a, ha, hka⟩ := (emits_prepareMigrateProcessInstancesRequest request).of_run hprep
  obtain ⟨evs, hevs, hk⟩ := migrateProcessDefinitions_all_current fuel e processDefinitions t0 hall
  have hrun : migrateProcessInstances fuel request e t = (.value (), t ++ (a ++ evs)) := by
    simp only [migrateProcessInstances]
    rw [bind_value hprep]
    by_cases hlen : processDefinitions.length = 0
    · have hnil : processDefinitions = [] := List.length_eq_zero.mp hlen
      subst hnil
      simp only [migrateProcessDefinitions, run_pure, Prod.mk.injEq, true_and,
        List.self_eq_append_right] at hevs
      simp [hevs, ha]
    · rw [if_neg hlen, hevs, ha, List.append_assoc]
  refine ⟨_, hrun, ?_⟩
  rw [List.drop_left]
  intro ev hev
  have hq : ev.kind = .query := by
    rcases List.mem_append.mp hev with h | h
    · exact hka ev h
    · exact hk ev h
  simp [hq]

/-- C7, at a concrete input: the request for `invoice-flow` with source and target version 2. -/
theorem migrateProcessInstances_no_effect_when_current_witness :
    ∃ t1,
      migrateProcessInstances 5
        [{ name := some "invoice-flow", sourceProcessDefinitionId := .number 2,
           targetProcessDefinitionId := .number 2 }] invoiceEngine [] = (.value (), t1) ∧
      ∀ ev ∈ t1.drop ([] : Trace).length,
        ev.kind ≠ .migration ∧ ev.kind ≠ .planGeneration ∧ ev.kind ≠ .batchSubmission ∧
        ev.kind ≠ .batchSuspension ∧ ev.kind ≠ .batchDeletion ∧
        ev.kind ≠ .deploymentDeletion :=
  migrateProcessInstances_no_effect_when_current 5 invoiceEngine [] []
    [{ name := some "invoice-flow", sourceProcessDefinitionId := .number 2,
       targetProcessDefinitionId := .number 2 }]
    [{ name := some "invoice-flow", sourceProcessDefinitionId := .number 2,
       targetProcessDefinitionId := .number 2 }]
    rfl ⟨[some "invoice-flow:2"], some "invoice-flow:2", _, rfl, by decide, trivial⟩

/-! ## Expansion of the request -/

/-- C8 as stated fails: an engine that lists two latest-version definitions with
the key `invoice-flow` (one per tenant) makes the expansion of the sentinel
return two requests for that one key. -/
theorem prepareMigrateProcessInstancesRequest_repeats_a_key :
    prepareMigrateProcessInstancesRequest [requestFor "ALL"] tenantsEngine [] =
      (.value [requestFor "invoice-flow", requestFor "invoice-flow"],
        [.call (.listProcessDefinitions { latestVersion := some true }),
         .http (.getProcessDefinitions { latestVersion := some true })]) := by
  decide

/-- C8, amended: when the name of the first request is the sentinel `ALL`, the
expansion lists the definitions marked latest-version and returns one request
per listed definition, in listing order, each carrying the key of the definition
as name and no source or target version; when the first request is not the
sentinel, the request list is returned unchanged and nothing is asked of the
engine. -/
theorem prepareMigrateProcessInstancesRequest_spec
    (e : Engine) (t : Trace) (first : MigrationRequest) (rest : List MigrationRequest) :
    (first.name = some "ALL" →
      ∃ listed t1,
        CamundaApiHttpClient.listProcessDefinitions { latestVersion := some true } e t =
          (.value listed, t1) ∧
        prepareMigrateProcessInstancesRequest (first :: rest) e t =
          (.value (listed.map (fun x => requestFor x.key)), t1)) ∧
    (first.name ≠ some "ALL" →
      prepareMigrateProcessInstancesRequest (first :: rest) e t =
        (.value (first :: rest), t)) := by
  constructor
  · intro h
    obtain ⟨listed, h1⟩ := listProcessDefinitions_run { latestVersion := some true } e t
    refine ⟨listed, _, h1, ?_⟩
    simp only [prepareMigrateProcessInstancesRequest, List.head?_cons, h, if_true]
    rw [bind_value h1]
    rfl
  · intro h
    simp [prepareMigrateProcessInstancesRequest, h]

/-- The expansion of the sentinel, when the engine lists no latest-version
definition, is empty and the run stops there without raising. -/
theorem migrateProcessInstances_stops_when_nothing_listed
    (fuel : Nat) (e : Engine) (t : Trace) (first : MigrationRequest)
    (rest : List MigrationRequest) (hfirst : first.name = some "ALL")
    (hnone : (CamundaApiHttpClient.listProcessDefinitions { latestVersion := some true } e t).1 =
      .value []) :
    migrateProcessInstances fuel (first :: rest) e t =
      (.value (), t ++ [.call (.listProcessDefinitions { latestVersion := some true }),
        .http (.getProcessDefinitions { latestVersion := some true })]) := by
  obtain ⟨listed, h1⟩ := listProcessDefinitions_run { latestVersion := some true } e t
  rw [h1] at hnone
  simp only [Completion.value.injEq] at hnone
  subst hnone
  simp only [migrateProcessInstances, prepareMigrateProcessInstancesRequest, List.head?_cons,
    hfirst, if_true]
  rw [bind_value (bind_value h1)]
  rfl

/-- C9, at the failing input: for the empty request list `migrateProcessInstances`
raises a TypeError, on reading `request[0].name`, before anything is asked of the
engine. -/
theorem migrateProcessInstances_raises_on_empty_request (fuel : Nat) (e : Engine) (t : Trace) :
    migrateProcessInstances fuel [] e t = (.thrown .typeError, t) := by
  rfl

/-- C10, at the failing input: when the generation of the migration plan is
rejected, `executeProcessInstancesMigration` raises a TypeError, on reading
`migrationBatch.id`; no batch is submitted and no statistics are polled. -/
theorem executeProcessInstancesMigration_raises_without_plan :
    executeProcessInstancesMigration 5 (some "invoice-flow:1") (some "invoice-flow:2")
        planlessEngine [] =
      (.thrown .typeError,
        [.call (.migrateProcessInstances (some "invoice-flow:1") (some "invoice-flow:2")),
         .call (.generateMigrationPlan (some "invoice-flow:1") (some "invoice-flow:2")),
         .http (.postMigrationGenerate "invoice-flow:1" "invoice-flow:2" true),
         .call (.migrateProcessInstancesForMigrationPlan none)]) := by
  decide

/-- For every engine: when the gateway yields no migration plan for a non-empty
pair of ids, `executeProcessInstancesMigration` raises right after the gateway
declined to submit the missing plan. -/
theorem executeProcessInstancesMigration_raises_when_plan_missing
    (fuel : Nat) (e : Engine) (t t1 : Trace) (source target : Option String)
    (hs : isFalsy source = false) (ht : isFalsy target = false)
    (hplan : CamundaApiHttpClient.generateMigrationPlan source target e
      (t ++ [.call (.migrateProcessInstances source target)]) = (.value none, t1)) :
    executeProcessInstancesMigration fuel source target e t =
      (.thrown .typeError, t1 ++ [.call (.migrateProcessInstancesForMigrationPlan none)]) := by
  have hclient : CamundaApiHttpClient.migrateProcessInstances source target e t =
      (.value none, t1 ++ [.call (.migrateProcessInstancesForMigrationPlan none)]) := by
    simp only [CamundaApiHttpClient.migrateProcessInstances, hs, ht, Bool.or_self,
      Bool.false_eq_true, if_false]
    rw [bind_value (run_emit _ e t), bind_value hplan]
    simp [CamundaApiHttpClient.migrateProcessInstancesForMigrationPlan, run_bind, Js.bind]
  simp only [executeProcessInstancesMigration, hs, ht, Bool.or_self, Bool.false_eq_true,
    if_false]
  rw [bind_value hclient]
  rfl

/-- C8 amended, at a concrete input: the sentinel against the sample engine. -/
theorem prepareMigrateProcessInstancesRequest_spec_witness :
    ∃ listed t1,
      CamundaApiHttpClient.listProcessDefinitions { latestVersion := some true }
        invoiceEngine [] = (.value listed, t1) ∧
      prepareMigrateProcessInstancesRequest [requestFor "ALL"] invoiceEngine [] =
        (.value (listed.map (fun x => requestFor x.key)), t1) :=
  (prepareMigrateProcessInstancesRequest_spec invoiceEngine [] (requestFor "ALL") []).1 rfl

/-! ## Failure of one pair -/

/-- C11, at the failing input: on an engine with three versions of `invoice-flow`
that rejects the generation of a migration plan, the run for the request
`invoice-flow` raises a TypeError while migrating the pair of version 1, and the
pair of version 2 after it, which on its own is cleaned up without an error, is
never processed: no instance query for version 2 is in the history. -/
theorem migrateProcessInstances_abandons_later_pairs :
    migrateProcessInstances 5 [requestFor "invoice-flow"] threeVersionsEngine [] =
      (.thrown .typeError,
        [.call (.listProcessDefinitions { key := some "invoice-flow" }),
         .http (.getProcessDefinitions { key := some "invoice-flow" }),
         .call (.getProcessDefinitionLastVersionIdByDefinitionKey (some "invoice-flow")),
         .http (.getProcessDefinitionByKey "invoice-flow"),
         .call (.getProcessInstancesByProcessDefinitionId (some "invoice-flow:1")),
         .http (.getProcessInstances "invoice-flow:1"),
         .call (.migrateProcessInstances (some "invoice-flow:1") (some "invoice-flow:3")),
         .call (.generateMigrationPlan (some "invoice-flow:1") (some "invoice-flow:3")),
         .http (.postMigrationGenerate "invoice-flow:1" "invoice-flow:3" true),
         .call (.migrateProcessInstancesForMigrationPlan none)]) ∧
    (∀ ev ∈ (migrateProcessInstances 5 [requestFor "invoice-flow"] threeVersionsEngine []).2,
      ev ≠ .call (.getProcessInstancesByProcessDefinitionId (some "invoice-flow:2"))) ∧
    (migrateSourceProcessDefinition 5 (some "invoice-flow:3") (some "invoice-flow:2")
        threeVersionsEngine []).1 = .value () := by
  decide

/-! ## Versions that are not numbers -/

theorem getProcessDefinitionIdsForMigration_not_number
    (processDefinition : MigrationRequest) (e : Engine) (t : Trace)
    (h : processDefinition.sourceProcessDefinitionId.typeof ≠ "number") :
    ∃ listed latest t1 t2,
      CamundaApiHttpClient.listProcessDefinitions { key := processDefinition.name } e t =
        (.value listed, t1) ∧
      CamundaApiHttpClient.getProcessDefinitionLastVersionIdByDefinitionKey
        processDefinition.name e t1 = (.value latest, t2) ∧
      getProcessDefinitionIdsForMigration (some processDefinition) e t =
        (.value (some
          { sourceProcessDefinitionIds := some (listed.map (fun x => some x.id)),
            targetProcessDefinitionId := latest }), t2) := by
  obtain ⟨listed, h1⟩ := listProcessDefinitions_run { key := processDefinition.name } e t
  obtain ⟨latest, t2, h2⟩ :=
    getProcessDefinitionLastVersionIdByDefinitionKey_run processDefinition.name e
      (t ++ [.call (.listProcessDefinitions { key := processDefinition.name }),
        .http (.getProcessDefinitions { key := processDefinition.name })])
  refine ⟨listed, latest, _, t2, h1, h2, ?_⟩
  cases hs : processDefinition.sourceProcessDefinitionId with
  | number n => simp [hs, JsValue.typeof] at h
  | undefined =>
    simp only [getProcessDefinitionIdsForMigration, hs, JsValue.typeof]
    simp [run_bind, Js.bind, h1, h2]
  | null =>
    simp only [getProcessDefinitionIdsForMigration, hs, JsValue.typeof]
    simp [run_bind, Js.bind, h1, h2]
  | boolean b =>
    simp only [getProcessDefinitionIdsForMigration, hs, JsValue.typeof]
    simp [run_bind, Js.bind, h1, h2]
  | string str =>
    simp only [getProcessDefinitionIdsForMigration, hs, JsValue.typeof]
    simp [run_bind, Js.bind, h1, h2]

/-! ## Where an event occurs in a history -/

theorem Extends.refl (h : Trace) : Extends h h := ⟨[], by simp⟩

theorem Extends.trans {h h1 h0 : Trace} (h01 : Extends h h1) (h10 : Extends h1 h0) :
    Extends h h0 := by
  obtain ⟨m1, rfl⟩ := h01
  obtain ⟨m0, rfl⟩ := h10
  exact ⟨m0 ++ m1, by simp⟩

theorem occurs_early_or_extends {t a b before : Trace} {ev : Event}
    (hocc : OccursAfter (t ++ a ++ b) before ev) (hext : Extends before t) :
    OccursAfter (t ++ a) before ev ∨ Extends before (t ++ a) := by
  obtain ⟨post, hpost⟩ := hocc
  obtain ⟨mid, rfl⟩ := hext
  have h : a ++ b = mid ++ ev :: post := by
    have h1 : t ++ (a ++ b) = t ++ (mid ++ ev :: post) := by
      simpa [List.append_assoc] using hpost
    exact List.append_cancel_left h1
  rcases List.append_eq_append_iff.mp h with ⟨a1, h1, h2⟩ | ⟨c1, h1, h2⟩
  · exact Or.inr ⟨a1, by rw [h1, List.append_assoc]⟩
  · cases c1 with
    | nil => exact Or.inr ⟨[], by simp at h1; simp [h1]⟩
    | cons e1 c2 =>
      simp only [List.cons_append, List.cons.injEq] at h2
      obtain ⟨h3, -⟩ := h2
      exact Or.inl ⟨c2, by rw [h1, h3, List.append_assoc]⟩

theorem occurs_in_segment {t a before : Trace} {ev : Event}
    (hocc : OccursAfter (t ++ a) before ev) (hext : Extends before t) : ev ∈ a := by
  obtain ⟨post, hpost⟩ := hocc
  obtain ⟨mid, rfl⟩ := hext
  have h : a = mid ++ ev :: post := by
    have h1 : t ++ a = t ++ (mid ++ ev :: post) := by
      simpa [List.append_assoc] using hpost
    exact List.append_cancel_left h1
  rw [h]
  simp

/-! ## Which steps start a cleanup -/

theorem startsCleanup_false_of_kind {ev : Event} (h : ev.kind ≠ .query) :
    ev.startsCleanup = false := by
  cases ev with
  | call c => cases c <;> simp_all [Event.kind, Event.startsCleanup]
  | http r => rfl
  | delay d => rfl

theorem quiet_getProcessInstancesByProcessDefinitionId (id : Option String) :
    Emits (fun ev => ev.startsCleanup = false)
      (CamundaApiHttpClient.getProcessInstancesByProcessDefinitionId id) := by
  unfold CamundaApiHttpClient.getProcessInstancesByProcessDefinitionId
  repeat' first
    | exact Emits.pure _
    | exact Emits.throwJs _
    | exact Emits.emit rfl
    | exact Emits.send rfl
    | apply Emits.bind
    | apply Emits.ite
    | intro _
    | split

theorem quiet_getProcessDefinitionLastVersionIdByDefinitionKey (key : Option String) :
    Emits (fun ev => ev.startsCleanup = false)
      (CamundaApiHttpClient.getProcessDefinitionLastVersionIdByDefinitionKey key) := by
  unfold CamundaApiHttpClient.getProcessDefinitionLastVersionIdByDefinitionKey
  repeat' first
    | exact Emits.pure _
    | exact Emits.throwJs _
    | exact Emits.emit rfl
    | exact Emits.send rfl
    | apply Emits.bind
    | apply Emits.ite
    | intro _
    | split

theorem quiet_listProcessDefinitions (filters : ProcessDefinitionFilters) :
    Emits (fun ev => ev.startsCleanup = false)
      (CamundaApiHttpClient.listProcessDefinitions filters) := by
  unfold CamundaApiHttpClient.listProcessDefinitions
  repeat' first
    | exact Emits.pure _
    | exact Emits.emit rfl
    | exact Emits.send rfl
    | apply Emits.bind
    | intro _

theorem quiet_getBatchesStatistics (b : String) :
    Emits (fun ev => ev.startsCleanup = false) (CamundaApiHttpClient.getBatchesStatistics b) := by
  unfold CamundaApiHttpClient.getBatchesStatistics
  repeat' first
    | exact Emits.pure _
    | exact Emits.emit rfl
    | exact Emits.send rfl
    | apply Emits.bind
    | intro _

theorem quiet_migrateProcessInstances (source target : Option String) :
    Emits (fun ev => ev.startsCleanup = false)
      (CamundaApiHttpClient.migrateProcessInstances source target) :=
  (emits_migrateProcessInstances source target).mono (fun ev h =>
    startsCleanup_false_of_kind (by rcases h with h | h | h <;> simp [h]))

theorem quiet_deleteFailedBatch (id : Option String) :
    Emits (fun ev => ev.startsCleanup = false) (deleteFailedBatch id) :=
  (emits_deleteFailedBatch id).mono (fun ev h =>
    startsCleanup_false_of_kind (by rcases h with h | h | h <;> simp [h]))

theorem quiet_getProcessDefinitionIdsForMigration (processDefinition : Option MigrationRequest) :
    Emits (fun ev => ev.startsCleanup = false)
      (getProcessDefinitionIdsForMigration processDefinition) := by
  unfold getProcessDefinitionIdsForMigration
  repeat' first
    | exact Emits.pure _
    | exact Emits.singleOrDefault _
    | exact quiet_listProcessDefinitions _
    | exact quiet_getProcessDefinitionLastVersionIdByDefinitionKey _
    | apply Emits.bind
    | apply Emits.ite
    | intro _
    | split

theorem quiet_prepareMigrateProcessInstancesRequest (request : List MigrationRequest) :
    Emits (fun ev => ev.startsCleanup = false)
      (prepareMigrateProcessInstancesRequest request) := by
  unfold prepareMigrateProcessInstancesRequest
  repeat' first
    | exact Emits.pure _
    | exact Emits.throwJs _
    | exact quiet_listProcessDefinitions _
    | apply Emits.bind
    | apply Emits.ite
    | intro _
    | split

theorem quiet_checkBatchCompletion (batchId : Option String) :
    Emits (fun ev => ev.startsCleanup = false) (checkBatchCompletion batchId) := by
  unfold checkBatchCompletion
  repeat' first
    | exact Emits.pure _
    | exact Emits.singleOrDefault _
    | exact quiet_getBatchesStatistics _
    | apply Emits.bind
    | apply Emits.ite
    | intro _
    | split

theorem quiet_checkBatchExecutionResult (batchId : Option String) :
    Emits (fun ev => ev.startsCleanup = false) (checkBatchExecutionResult batchId) := by
  unfold checkBatchExecutionResult
  repeat' first
    | exact Emits.pure _
    | exact Emits.singleOrDefault _
    | exact quiet_getBatchesStatistics _
    | apply Emits.bind
    | apply Emits.ite
    | intro _
    | split

theorem quiet_waitLoop (batchId : Option String) (fuel : Nat) (isCompleted : Bool) :
    Emits (fun ev => ev.startsCleanup = false) (waitLoop batchId fuel isCompleted) := by
  induction fuel generalizing isCompleted with
  | zero =>
    cases isCompleted
    · exact Emits.exhausted
    · exact Emits.pure _
  | succ fuel ih =>
    cases isCompleted
    · unfold waitLoop
      refine Emits.bind (Emits.delay rfl) (fun _ => ?_)
      exact Emits.bind (quiet_checkBatchCompletion _) (fun c => ih c)
    · exact Emits.pure _

theorem quiet_waitBatchExecutionCompletion (fuel : Nat) (batchId : Option String) :
    Emits (fun ev => ev.startsCleanup = false) (waitBatchExecutionCompletion fuel batchId) := by
  unfold waitBatchExecutionCompletion
  refine Emits.ite (Emits.pure _) ?_
  exact Emits.bind (quiet_checkBatchCompletion _) (fun c => quiet_waitLoop _ _ c)

theorem quiet_executeProcessInstancesMigration (fuel : Nat) (source target : Option String) :
    Emits (fun ev => ev.startsCleanup = false)
      (executeProcessInstancesMigration fuel source target) := by
  unfold executeProcessInstancesMigration
  repeat' first
    | exact Emits.pure _
    | exact Emits.throwJs _
    | exact quiet_migrateProcessInstances _ _
    | exact quiet_waitBatchExecutionCompletion _ _
    | exact quiet_checkBatchExecutionResult _
    | apply Emits.bind
    | apply Emits.ite
    | intro _
    | split

theorem cleanup_of_deleteDeployment (id : Option String) :
    Emits (fun ev => ev.startsCleanup = true → ev = .call (.getProcessDefinitionById id))
      (deleteDeployment id) := by
  have hfetch : Emits
      (fun ev => ev.startsCleanup = true → ev = .call (.getProcessDefinitionById id))
      (CamundaApiHttpClient.getProcessDefinitionById id) := by
    unfold CamundaApiHttpClient.getProcessDefinitionById
    repeat' first
      | exact Emits.pure _
      | exact Emits.emit (fun _ => rfl)
      | exact Emits.send (by simp [Event.startsCleanup])
      | apply Emits.bind
      | apply Emits.ite
      | intro _
      | split
  unfold deleteDeployment
  repeat' first
    | exact Emits.pure _
    | exact Emits.throwJs _
    | exact Emits.delay (by simp [Event.startsCleanup])
    | exact hfetch
    | exact (emits_deleteDeployment_client _).mono (fun ev h hc => by
        have : ev.startsCleanup = false := startsCleanup_false_of_kind (by simp [h])
        simp [this] at hc)
    | apply Emits.bind
    | apply Emits.ite
    | intro _
    | split

theorem getProcessInstancesByProcessDefinitionId_run (id : Option String) (e : Engine)
    (t : Trace) :
    ∃ insts t1, CamundaApiHttpClient.getProcessInstancesByProcessDefinitionId id e t =
      (.value insts, t1) := by
  unfold CamundaApiHttpClient.getProcessInstancesByProcessDefinitionId
  rcases id with _ | id
  · simp [run_bind, Js.bind]
  · by_cases h : id = "" <;> simp [run_bind, Js.bind, h]

theorem executeProcessInstancesMigration_value (fuel : Nat) (e : Engine) (t t4 : Trace)
    (source target : Option String) (r : MigrationResult)
    (h : executeProcessInstancesMigration fuel source target e t = (.value (some r), t4)) :
    ∃ t2 t3,
      CamundaApiHttpClient.migrateProcessInstances source target e t =
        (.value (some r.migrationBatch), t2) ∧
      waitBatchExecutionCompletion fuel (some r.migrationBatch.id) e t2 = (.value (), t3) ∧
      checkBatchExecutionResult (some r.migrationBatch.id) e t3 =
        (.value r.isSuccessedMigrationBatch, t4) := by
  unfold executeProcessInstancesMigration at h
  by_cases hg : (isFalsy source || isFalsy target) = true
  · simp [hg] at h
  · rw [if_neg hg] at h
    rcases hm : CamundaApiHttpClient.migrateProcessInstances source target e t with ⟨c, t2⟩
    cases c with
    | value ob =>
      rw [bind_value hm] at h
      cases ob with
      | none => simp at h
      | some batch =>
        simp only at h
        rcases hw : waitBatchExecutionCompletion fuel (some batch.id) e t2 with ⟨cw, t3⟩
        cases cw with
        | value u =>
          rw [bind_value hw] at h
          rcases hc : checkBatchExecutionResult (some batch.id) e t3 with ⟨cc, t5⟩
          cases cc with
          | value b =>
            rw [bind_value hc] at h
            simp only [run_pure, Prod.mk.injEq, Completion.value.injEq, Option.some.injEq] at h
            obtain ⟨rfl, rfl⟩ := h
            exact ⟨t2, t3, rfl, hw, hc⟩
          | thrown err => rw [bind_thrown hc] at h; simp at h
          | outOfFuel => rw [bind_outOfFuel hc] at h; simp at h
        | thrown err => rw [bind_thrown hw] at h; simp at h
        | outOfFuel => rw [bind_outOfFuel hw] at h; simp at h
    | thrown err => rw [bind_thrown hm] at h; simp at h
    | outOfFuel => rw [bind_outOfFuel hm] at h; simp at h

theorem no_cleanup_in_quiet {t a before : Trace} {ev : Event}
    (hocc : OccursAfter (t ++ a) before ev) (hext : Extends before t)
    (hq : ∀ x ∈ a, x.startsCleanup = false) (hev : ev.startsCleanup = true) : False := by
  have := hq ev (occurs_in_segment hocc hext)
  simp [hev] at this

theorem cleanup_in_later_segment {t a x before : Trace} {ev : Event}
    (hocc : OccursAfter (t ++ a ++ x) before ev) (hext : Extends before t)
    (hq : ∀ y ∈ a, y.startsCleanup = false) (hev : ev.startsCleanup = true) :
    Extends before (t ++ a) ∧ ev ∈ x := by
  rcases occurs_early_or_extends hocc hext with h | h
  · exact (no_cleanup_in_quiet h hext hq hev).elim
  · exact ⟨h, occurs_in_segment hocc h⟩

theorem migrateSourceProcessDefinition_cleanup (fuel : Nat) (e : Engine) (t : Trace)
    (target source : Option String) (before : Trace) (ev : Event)
    (hocc : OccursAfter (migrateSourceProcessDefinition fuel target source e t).2 before ev)
    (hext : Extends before t) (hev : ev.startsCleanup = true) :
    ev = .call (.getProcessDefinitionById source) ∧ source ≠ target ∧
      CleanupJustified fuel e target source t before := by
  by_cases hst : source = target
  · have hbody : (migrateSourceProcessDefinition fuel target source e t).2 = t ++ [] := by
      simp [migrateSourceProcessDefinition, hst]
    rw [hbody] at hocc
    exact (no_cleanup_in_quiet hocc hext (by simp) hev).elim
  · obtain ⟨insts, t1, hinst⟩ := getProcessInstancesByProcessDefinitionId_run source e t
    obtain ⟨a, ha, hqa⟩ := (quiet_getProcessInstancesByProcessDefinitionId source).of_run hinst
    by_cases hnone : (insts.isNone || insts == some []) = true
    · have hbody : migrateSourceProcessDefinition fuel target source e t =
          deleteDeployment source e t1 := by
        simp only [migrateSourceProcessDefinition, hst, ne_eq, not_false_eq_true, if_true]
        rw [bind_value hinst, if_pos hnone]
      obtain ⟨x, hx, hqx⟩ := (cleanup_of_deleteDeployment source).frame e t1
      rw [hbody, hx, ha] at hocc
      obtain ⟨hext1, hmem⟩ := cleanup_in_later_segment hocc hext hqa hev
      refine ⟨hqx ev hmem hev, hst, Or.inl ⟨insts, t1, hinst, ?_, ha ▸ hext1⟩⟩
      cases insts with
      | none => exact Or.inl rfl
      | some l => cases l <;> simp_all
    · have hbody : migrateSourceProcessDefinition fuel target source e t =
          (executeProcessInstancesMigration fuel source target >>= fun r =>
            match r with
            | none => throwJs .typeError
            | some r =>
              if r.isSuccessedMigrationBatch then deleteDeployment source
              else deleteFailedBatch (some r.migrationBatch.id)) e t1 := by
        simp only [migrateSourceProcessDefinition, hst, ne_eq, not_false_eq_true, if_true]
        rw [bind_value hinst, if_neg hnone]
      rcases hexec : executeProcessInstancesMigration fuel source target e t1 with ⟨c, t4⟩
      obtain ⟨b, hb, hqb⟩ := (quiet_executeProcessInstancesMigration fuel source target).of_run hexec
      have hqab : ∀ y ∈ a ++ b, y.startsCleanup = false := by
        intro y hy
        rcases List.mem_append.mp hy with h | h
        · exact hqa y h
        · exact hqb y h
      have ht4 : t4 = t ++ (a ++ b) := by rw [hb, ha, List.append_assoc]
      cases c with
      | thrown err =>
        rw [hbody, bind_thrown hexec, ht4] at hocc
        exact (no_cleanup_in_quiet hocc hext hqab hev).elim
      | outOfFuel =>
        rw [hbody, bind_outOfFuel hexec, ht4] at hocc
        exact (no_cleanup_in_quiet hocc hext hqab hev).elim
      | value r =>
        rw [hbody, bind_value hexec] at hocc
        cases r with
        | none =>
          simp only [run_throwJs] at hocc
          rw [ht4] at hocc
          exact (no_cleanup_in_quiet hocc hext hqab hev).elim
        | some r =>
          simp only at hocc
          by_cases hsucc : r.isSuccessedMigrationBatch = true
          · rw [if_pos hsucc] at hocc
            obtain ⟨x, hx, hqx⟩ := (cleanup_of_deleteDeployment source).frame e t4
            rw [hx, ht4] at hocc
            obtain ⟨hext4, hmem⟩ := cleanup_in_later_segment hocc hext hqab hev
            obtain ⟨t2, t3, hm, hw, hc⟩ :=
              executeProcessInstancesMigration_value fuel e t1 t4 source target r hexec
            refine ⟨hqx ev hmem hev, hst, Or.inr ?_⟩
            rw [hsucc] at hc
            cases insts with
            | none => simp at hnone
            | some l =>
              cases l with
              | nil => simp at hnone
              | cons inst rest =>
                exact ⟨inst, rest, t1, r.migrationBatch, t2, t3, t4, hinst, hm, hw, hc,
                  ht4 ▸ hext4⟩
          · rw [if_neg hsucc] at hocc
            obtain ⟨y, hy, hqy⟩ := (quiet_deleteFailedBatch (some r.migrationBatch.id)).frame e t4
            rw [hy, ht4, List.append_assoc] at hocc
            refine (no_cleanup_in_quiet hocc hext ?_ hev).elim
            intro z hz
            rcases List.mem_append.mp hz with h | h
            · exact hqab z h
            · exact hqy z h

theorem grows_migrateSourceProcessDefinition (fuel : Nat) (target source : Option String) :
    Emits (fun _ => True) (migrateSourceProcessDefinition fuel target source) := by
  unfold migrateSourceProcessDefinition
  repeat' first
    | exact Emits.pure _
    | exact Emits.throwJs _
    | exact (quiet_getProcessInstancesByProcessDefinitionId _).mono (fun _ _ => trivial)
    | exact (quiet_executeProcessInstancesMigration _ _ _).mono (fun _ _ => trivial)
    | exact (quiet_deleteFailedBatch _).mono (fun _ _ => trivial)
    | exact (cleanup_of_deleteDeployment _).mono (fun _ _ => trivial)
    | apply Emits.bind
    | apply Emits.ite
    | intro _
    | split

theorem grows_migrateSourceProcessDefinitions (fuel : Nat) (target : Option String)
    (ids : List (Option String)) :
    Emits (fun _ => True) (migrateSourceProcessDefinitions fuel target ids) := by
  induction ids with
  | nil => exact Emits.pure _
  | cons first rest ih =>
    unfold migrateSourceProcessDefinitions
    exact Emits.bind (grows_migrateSourceProcessDefinition fuel target first) (fun _ => ih)

theorem grows_migrateProcessDefinition (fuel : Nat) (processDefinition : MigrationRequest) :
    Emits (fun _ => True) (migrateProcessDefinition fuel processDefinition) := by
  unfold migrateProcessDefinition
  repeat' first
    | exact Emits.throwJs _
    | exact (quiet_getProcessDefinitionIdsForMigration _).mono (fun _ _ => trivial)
    | exact grows_migrateSourceProcessDefinitions _ _ _
    | apply Emits.bind
    | intro _
    | split

theorem grows_migrateProcessDefinitions (fuel : Nat) (processDefinitions : List MigrationRequest) :
    Emits (fun _ => True) (migrateProcessDefinitions fuel processDefinitions) := by
  induction processDefinitions with
  | nil => exact Emits.pure _
  | cons first rest ih =>
    unfold migrateProcessDefinitions
    exact Emits.bind (grows_migrateProcessDefinition fuel first) (fun _ => ih)

theorem migrateSourceProcessDefinitions_cleanup (fuel : Nat) (e : Engine)
    (target : Option String) (ids : List (Option String)) :
    ∀ (t before : Trace) (ev : Event),
      OccursAfter (migrateSourceProcessDefinitions fuel target ids e t).2 before ev →
      Extends before t → ev.startsCleanup = true →
      ∃ source h,
        ReachesSource fuel e target ids t source h ∧ source ∈ ids ∧
        ev = .call (.getProcessDefinitionById source) ∧ source ≠ target ∧
        CleanupJustified fuel e target source h before := by
  induction ids with
  | nil =>
    intro t before ev hocc hext hev
    have hrun : (migrateSourceProcessDefinitions fuel target [] e t).2 = t ++ [] := by
      simp [migrateSourceProcessDefinitions]
    rw [hrun] at hocc
    exact (no_cleanup_in_quiet hocc hext (by simp) hev).elim
  | cons first rest ih =>
    intro t before ev hocc hext hev
    rcases hb : migrateSourceProcessDefinition fuel target first e t with ⟨c, t1⟩
    obtain ⟨a, ha, -⟩ := (grows_migrateSourceProcessDefinition fuel target first).of_run hb
    have here : OccursAfter (migrateSourceProcessDefinition fuel target first e t).2 before ev →
        ∃ source h,
          ReachesSource fuel e target (first :: rest) t source h ∧ source ∈ first :: rest ∧
          ev = .call (.getProcessDefinitionById source) ∧ source ≠ target ∧
          CleanupJustified fuel e target source h before := by
      intro h
      obtain ⟨h1, h2, h3⟩ :=
        migrateSourceProcessDefinition_cleanup fuel e t target first before ev h hext hev
      exact ⟨first, t, .here first rest t, List.mem_cons_self _ _, h1, h2, h3⟩
    cases c with
    | value u =>
      have hrun : migrateSourceProcessDefinitions fuel target (first :: rest) e t =
          migrateSourceProcessDefinitions fuel target rest e t1 := by
        simp only [migrateSourceProcessDefinitions]
        rw [bind_value hb]
      obtain ⟨b, hbb, -⟩ := (grows_migrateSourceProcessDefinitions fuel target rest).frame e t1
      rw [hrun] at hocc
      have hocc2 := hocc
      rw [hbb, ha] at hocc2
      rcases occurs_early_or_extends hocc2 hext with h | h
      · exact here (by rw [hb]; simpa [ha] using h)
      · obtain ⟨source, h0, hreach, hmem, h1, h2, h3⟩ := ih t1 before ev hocc (ha ▸ h) hev
        exact ⟨source, h0, .later first rest t t1 source h0 hb hreach,
          List.mem_cons_of_mem _ hmem, h1, h2, h3⟩
    | thrown err =>
      have hrun : migrateSourceProcessDefinitions fuel target (first :: rest) e t =
          (.thrown err, t1) := by
        simp only [migrateSourceProcessDefinitions]
        rw [bind_thrown hb]
      rw [hrun] at hocc
      exact here (by rw [hb]; exact hocc)
    | outOfFuel =>
      have hrun : migrateSourceProcessDefinitions fuel target (first :: rest) e t =
          (.outOfFuel, t1) := by
        simp only [migrateSourceProcessDefinitions]
        rw [bind_outOfFuel hb]
      rw [hrun] at hocc
      exact here (by rw [hb]; exact hocc)

theorem migrateProcessDefinition_cleanup (fuel : Nat) (e : Engine)
    (processDefinition : MigrationRequest) (t before : Trace) (ev : Event)
    (hocc : OccursAfter (migrateProcessDefinition fuel processDefinition e t).2 before ev)
    (hext : Extends before t) (hev : ev.startsCleanup = true) :
    CleanupOfRequest fuel e processDefinition t before ev := by
  rcases hres : getProcessDefinitionIdsForMigration (some processDefinition) e t with ⟨c, h1⟩
  obtain ⟨a, ha, hqa⟩ :=
    (quiet_getProcessDefinitionIdsForMigration (some processDefinition)).of_run hres
  have stop : OccursAfter h1 before ev → CleanupOfRequest fuel e processDefinition t before ev := by
    intro h
    rw [ha] at h
    exact (no_cleanup_in_quiet h hext hqa hev).elim
  unfold migrateProcessDefinition at hocc
  cases c with
  | thrown err => rw [bind_thrown hres] at hocc; exact stop hocc
  | outOfFuel => rw [bind_outOfFuel hres] at hocc; exact stop hocc
  | value ids =>
    rw [bind_value hres] at hocc
    cases ids with
    | none => exact stop hocc
    | some ids =>
      rcases ids with ⟨sourceIds, target⟩
      cases sourceIds with
      | none => exact stop hocc
      | some sourceIds =>
        simp only at hocc
        obtain ⟨b, hb, -⟩ :=
          (grows_migrateSourceProcessDefinitions fuel target sourceIds).frame e h1
        have hocc2 := hocc
        rw [hb, ha] at hocc2
        obtain ⟨hext1, -⟩ := cleanup_in_later_segment hocc2 hext hqa hev
        obtain ⟨source, h, hreach, hmem, h2, h3, h4⟩ :=
          migrateSourceProcessDefinitions_cleanup fuel e target sourceIds h1 before ev hocc
            (ha ▸ hext1) hev
        exact ⟨sourceIds, target, h1, source, h, hres, hreach, hmem, h3, h2, h4⟩

theorem migrateProcessDefinitions_cleanup (fuel : Nat) (e : Engine)
    (processDefinitions : List MigrationRequest) :
    ∀ (t before : Trace) (ev : Event),
      OccursAfter (migrateProcessDefinitions fuel processDefinitions e t).2 before ev →
      Extends before t → ev.startsCleanup = true →
      ∃ processDefinition h0,
        ReachesRequest fuel e processDefinitions t processDefinition h0 ∧
        processDefinition ∈ processDefinitions ∧
        CleanupOfRequest fuel e processDefinition h0 before ev := by
  induction processDefinitions with
  | nil =>
    intro t before ev hocc hext hev
    have hrun : (migrateProcessDefinitions fuel [] e t).2 = t ++ [] := by
      simp [migrateProcessDefinitions]
    rw [hrun] at hocc
    exact (no_cleanup_in_quiet hocc hext (by simp) hev).elim
  | cons first rest ih =>
    intro t before ev hocc hext hev
    rcases hb : migrateProcessDefinition fuel first e t with ⟨c, t1⟩
    obtain ⟨a, ha, -⟩ := (grows_migrateProcessDefinition fuel first).of_run hb
    have here : OccursAfter (migrateProcessDefinition fuel first e t).2 before ev →
        ∃ processDefinition h0,
          ReachesRequest fuel e (first :: rest) t processDefinition h0 ∧
          processDefinition ∈ first :: rest ∧
          CleanupOfRequest fuel e processDefinition h0 before ev := by
      intro h
      exact ⟨first, t, .here first rest t, List.mem_cons_self _ _,
        migrateProcessDefinition_cleanup fuel e first t before ev h hext hev⟩
    cases c with
    | value u =>
      have hrun : migrateProcessDefinitions fuel (first :: rest) e t =
          migrateProcessDefinitions fuel rest e t1 := by
        simp only [migrateProcessDefinitions]
        rw [bind_value hb]
      obtain ⟨b, hbb, -⟩ := (grows_migrateProcessDefinitions fuel rest).frame e t1
      rw [hrun] at hocc
      have hocc2 := hocc
      rw [hbb, ha] at hocc2
      rcases occurs_early_or_extends hocc2 hext with h | h
      · exact here (by rw [hb]; simpa [ha] using h)
      · obtain ⟨pd, h0, hreach, hmem, hc⟩ := ih t1 before ev hocc (ha ▸ h) hev
        exact ⟨pd, h0, .later first rest t t1 pd h0 hb hreach, List.mem_cons_of_mem _ hmem, hc⟩
    | thrown err =>
      have hrun : migrateProcessDefinitions fuel (first :: rest) e t = (.thrown err, t1) := by
        simp only [migrateProcessDefinitions]
        rw [bind_thrown hb]
      rw [hrun] at hocc
      exact here (by rw [hb]; exact hocc)
    | outOfFuel =>
      have hrun : migrateProcessDefinitions fuel (first :: rest) e t = (.outOfFuel, t1) := by
        simp only [migrateProcessDefinitions]
        rw [bind_outOfFuel hb]
      rw [hrun] at hocc
      exact here (by rw [hb]; exact hocc)

/-- C13: in any run of `migrateProcessInstances`, from any engine, history and
fuel, every start of the cleanup step `deleteDeployment(id)` that occurs in the
history of the run (the fetch of the definition record of `id`) belongs to a
request of the expanded list whose turn the run reached: `id` is one of the
source ids that request resolved to, it differs from the target id that request
resolved to, and before the cleanup starts either the gateway reported no
running instances for `id`, or a batch was submitted for `id`, the wait for it
returned and the batch was classified succeeded. -/
theorem deleteDeployment_only_for_settled_sources (fuel : Nat) (e : Engine) (t : Trace)
    (request : List MigrationRequest) (before : Trace) (ev : Event)
    (hocc : OccursAfter (migrateProcessInstances fuel request e t).2 before ev)
    (hext : Extends before t) (hev : ev.startsCleanup = true) :
    ∃ processDefinitions t0 processDefinition h0,
      prepareMigrateProcessInstancesRequest request e t = (.value processDefinitions, t0) ∧
      ReachesRequest fuel e processDefinitions t0 processDefinition h0 ∧
      processDefinition ∈ processDefinitions ∧
      CleanupOfRequest fuel e processDefinition h0 before ev := by
  rcases hprep : prepareMigrateProcessInstancesRequest request e t with ⟨c, t0⟩
  obtain ⟨a, ha, hqa⟩ := (quiet_prepareMigrateProcessInstancesRequest request).of_run hprep
  have stop : OccursAfter t0 before ev → False := by
    intro h
    rw [ha] at h
    exact no_cleanup_in_quiet h hext hqa hev
  unfold migrateProcessInstances at hocc
  cases c with
  | thrown err => rw [bind_thrown hprep] at hocc; exact (stop hocc).elim
  | outOfFuel => rw [bind_outOfFuel hprep] at hocc; exact (stop hocc).elim
  | value processDefinitions =>
    rw [bind_value hprep] at hocc
    by_cases hlen : processDefinitions.length = 0
    · rw [if_pos hlen] at hocc
      exact (stop hocc).elim
    · rw [if_neg hlen] at hocc
      obtain ⟨b, hb, -⟩ := (grows_migrateProcessDefinitions fuel processDefinitions).frame e t0
      have hocc2 := hocc
      rw [hb, ha] at hocc2
      obtain ⟨hext1, -⟩ := cleanup_in_later_segment hocc2 hext hqa hev
      obtain ⟨pd, h0, hreach, hmem, hc⟩ :=
        migrateProcessDefinitions_cleanup fuel e processDefinitions t0 before ev hocc
          (ha ▸ hext1) hev
      exact ⟨processDefinitions, t0, pd, h0, rfl, hreach, hmem, hc⟩

/-- C13, at a concrete input: the cleanup of version 1 in the run for `invoice-flow`
on the engine without running instances. -/
theorem deleteDeployment_only_for_settled_sources_witness :
    ∃ processDefinitions t0 processDefinition h0,
      prepareMigrateProcessInstancesRequest [requestFor "invoice-flow"] idleEngine [] =
        (.value processDefinitions, t0) ∧
      ReachesRequest 5 idleEngine processDefinitions t0 processDefinition h0 ∧
      processDefinition ∈ processDefinitions ∧
      CleanupOfRequest 5 idleEngine processDefinition h0
        [.call (.listProcessDefinitions { key := some "invoice-flow" }),
         .http (.getProcessDefinitions { key := some "invoice-flow" }),
         .call (.getProcessDefinitionLastVersionIdByDefinitionKey (some "invoice-flow")),
         .http (.getProcessDefinitionByKey "invoice-flow"),
         .call (.getProcessInstancesByProcessDefinitionId (some "invoice-flow:1")),
         .http (.getProcessInstances "invoice-flow:1")]
        (.call (.getProcessDefinitionById (some "invoice-flow:1"))) :=
  deleteDeployment_only_for_settled_sources 5 idleEngine [] [requestFor "invoice-flow"] _ _
    ⟨_, rfl⟩ ⟨_, rfl⟩ rfl

/-- C12: when the source version field of the request holds a value that is not
of number type, the resolution returns the ids of all definitions the gateway
lists for the key as source ids and the id the gateway reports as latest version
as target id, and it is the same run as for the request with both version fields
left out. Every string is such a value, and so is every source version the
entry point builds from the environment variables. -/
theorem getProcessDefinitionIdsForMigration_ignores_versions_that_are_not_numbers
    (processDefinition : MigrationRequest) (e : Engine) (t : Trace)
    (h : processDefinition.sourceProcessDefinitionId.typeof ≠ "number") :
    (∃ listed latest t1 t2,
      CamundaApiHttpClient.listProcessDefinitions { key := processDefinition.name } e t =
        (.value listed, t1) ∧
      CamundaApiHttpClient.getProcessDefinitionLastVersionIdByDefinitionKey
        processDefinition.name e t1 = (.value latest, t2) ∧
      getProcessDefinitionIdsForMigration (some processDefinition) e t =
        (.value (some
          { sourceProcessDefinitionIds := some (listed.map (fun x => some x.id)),
            targetProcessDefinitionId := latest }), t2)) ∧
    getProcessDefinitionIdsForMigration (some processDefinition) e t =
      getProcessDefinitionIdsForMigration
        (some { name := processDefinition.name, sourceProcessDefinitionId := .undefined,
                targetProcessDefinitionId := .undefined }) e t ∧
    (∀ s : String, (JsValue.string s).typeof ≠ "number") ∧
    (∀ (env : ProcessEnv), ∀ r ∈ mainRequest env,
      r.sourceProcessDefinitionId.typeof ≠ "number") := by
  refine ⟨getProcessDefinitionIdsForMigration_not_number processDefinition e t h, ?_, ?_, ?_⟩
  · obtain ⟨listed, latest, t1, t2, h1, h2, h3⟩ :=
      getProcessDefinitionIdsForMigration_not_number processDefinition e t h
    obtain ⟨listed0, latest0, t10, t20, h10, h20, h30⟩ :=
      getProcessDefinitionIdsForMigration_not_number
        { name := processDefinition.name, sourceProcessDefinitionId := .undefined,
          targetProcessDefinitionId := .undefined } e t (by simp [JsValue.typeof])
    simp only at h10 h20
    rw [h1] at h10
    simp only [Prod.mk.injEq, Completion.value.injEq] at h10
    obtain ⟨rfl, rfl⟩ := h10
    rw [h2] at h20
    simp only [Prod.mk.injEq, Completion.value.injEq] at h20
    obtain ⟨rfl, rfl⟩ := h20
    rw [h3, h30]
  · intro s
    simp [JsValue.typeof]
  · intro env r hr
    simp only [mainRequest, List.mem_singleton] at hr
    subst hr
    cases env.SOURCE_PROCESS_DEFINITION_ID <;> simp [envValue, JsValue.typeof]

/-- C12, at a concrete input: source version "1" and target version "2" given as strings. -/
theorem getProcessDefinitionIdsForMigration_ignores_versions_that_are_not_numbers_witness :
    getProcessDefinitionIdsForMigration
        (some { name := some "invoice-flow", sourceProcessDefinitionId := .string "1",
                targetProcessDefinitionId := .string "2" }) invoiceEngine [] =
      getProcessDefinitionIdsForMigration
        (some { name := some "invoice-flow", sourceProcessDefinitionId := .undefined,
                targetProcessDefinitionId := .undefined }) invoiceEngine [] :=
  (getProcessDefinitionIdsForMigration_ignores_versions_that_are_not_numbers
    { name := some "invoice-flow", sourceProcessDefinitionId := .string "1",
      targetProcessDefinitionId := .string "2" } invoiceEngine [] (by decide)).2.1

end Camunda
